import Mathlib

/-!
Verification of the jitter-buffered TTS playback engine of `web/src/app/page.tsx`
(shared ring buffer, playback gate, streaming linear resampler, WAV export) and of
the odd-byte stitching of the earlier base64 ingest revision.

Conventions of the embedding:
* JS numbers that hold cursor/counter values are `Nat` (the code keeps them
  nonnegative and below the ring size); audio sample values are `Int`
  (int16 storage) and `Rat` once normalized by `/ 32768`.
* The `Float32Array` arithmetic of the worklet is embedded over `Rat`
  (exact arithmetic); the claims under study are about the algorithm's
  dataflow, not about binate rounding of IEEE floats.
* Ring storage, and the audio SharedArrayBuffer, are embedded as total
  functions `Nat → Int`; only indices below the capacity are meaningful,
  exactly as in the source, where reads beyond the write cursor return
  whatever (stale) data the buffer holds.
-/

namespace VoiceAgents

/-- `TtsPlayerProcessor._availableInputSamples(w, r, size)`:
`w >= r ? (w - r) : (size - (r - w))`.  The same expression computes `avail`
inside `writeToSharedRing`. -/
def availableInputSamples (w r size : Nat) : Nat :=
  if r ≤ w then w - r else size - (r - w)

/-- State of the shared ring (`ttsSabCtrlI32Ref` cursors plus the
`ttsSabAudioI16Ref` int16 storage).  `ctrl[0] = w` (write cursor),
`ctrl[1] = r` (read cursor). -/
structure Ring where
  size : Nat
  w : Nat
  r : Nat
  data : Nat → Int

/-- `writeToSharedRing(pcmBuf)` from `page.tsx`: `src` is the chunk viewed as
int16 samples, `srcLen` its length.  Mirrors the source line by line:
compute `avail` and `free`; on overflow drop the oldest samples by advancing
the read cursor; then copy `src` in at most two segments and advance the
write cursor. -/
def writeToSharedRing (rb : Ring) (src : Nat → Int) (srcLen : Nat) : Ring :=
  let size := rb.size
  let avail := availableInputSamples rb.w rb.r size
  let free0 := size - avail - 1
  -- if (src.length > free) { const drop = src.length - free; r = (r + drop) % size; free += drop; }
  let r1 := if free0 < srcLen then (rb.r + (srcLen - free0)) % size else rb.r
  let free1 := if free0 < srcLen then free0 + (srcLen - free0) else free0
  let toWrite := min srcLen free1
  let first := min toWrite (size - rb.w)
  -- ring.set(src.subarray(0, first), w)
  let data1 : Nat → Int := fun i =>
    if rb.w ≤ i ∧ i < rb.w + first then src (i - rb.w) else rb.data i
  let remain := toWrite - first
  -- if (remain > 0) ring.set(src.subarray(first, first + remain), 0)
  let data2 : Nat → Int := fun i =>
    if i < remain then src (first + i) else data1 i
  { rb with w := (rb.w + toWrite) % size, r := r1, data := data2 }

/-- Occupied count of a ring, as the code computes it. -/
def Ring.occupied (rb : Ring) : Nat :=
  availableInputSamples rb.w rb.r rb.size

/-- Sample the consumer would obtain `k` positions after the read cursor. -/
def Ring.readAt (rb : Ring) (k : Nat) : Int :=
  rb.data ((rb.r + k) % rb.size)

/-- Operations touching the ring cursors: the ingest writer appends `n`
samples via `writeToSharedRing`; the worklet consumer advances the read
cursor one sample at a time, never past the occupied count (the resample
loop stops as soon as `avail < 1`), which a single render callback realizes
as advancing by `min k occupied`. -/
inductive RingOp where
  | write (n : Nat)
  | consume (k : Nat)

/-- Effect of one operation on the cursor pair `(w, r)`. -/
def ringOpStep (size : Nat) (c : Nat × Nat) (op : RingOp) : Nat × Nat :=
  match op with
  | .write n =>
      let rb := writeToSharedRing ⟨size, c.1, c.2, fun _ => 0⟩ (fun _ => 0) n
      (rb.w, rb.r)
  | .consume k =>
      (c.1, (c.2 + min k (availableInputSamples c.1 c.2 size)) % size)

/-- Cursor pair after running a sequence of operations from the freshly
initialized ring (`Atomics.store(ctrl, 0, 0); Atomics.store(ctrl, 1, 0)`). -/
def ringRun (size : Nat) (ops : List RingOp) : Nat × Nat :=
  ops.foldl (ringOpStep size) (0, 0)

/-! ## The `TtsPlayerProcessor` AudioWorklet

State of the worklet processor (constructor of `TtsPlayerProcessor` plus the
shared ring views `ctrl[0] = w`, `ctrl[1] = r`).  `audio` is the int16
SharedArrayBuffer; `pos` is `this.pos`, the fractional resampler carry.
The telemetry `postMessage` traffic and the `_tick` counter have no effect
on playback state and are not modelled; `this.rem` is assigned but never
read in the source and is likewise omitted. -/
structure Proc where
  inRate : Nat
  outRate : Nat
  audioSamples : Nat
  audio : Nat → Int
  w : Nat
  r : Nat
  underruns : Nat
  rebuffers : Nat
  playing : Bool
  startedOnce : Bool
  enabled : Bool
  eos : Bool
  holdFrames : Nat
  holdUntil : Nat
  cooldownFrames : Nat
  cooldownUntil : Nat
  emergencyLowFrames : Nat
  outCursor : Nat
  startFrames : Nat
  lowFrames : Nat
  highFrames : Nat
  pos : Rat

/-- `_readInputSampleAt(pos)`: `this.audio[pos] / 32768`. -/
def readInputSampleAt (audio : Nat → Int) (pos : Nat) : Rat :=
  (audio pos : Rat) / 32768

/-- Register state of the resample loop: read cursor, remaining available
samples, the two bracketing samples and the fractional position. -/
structure RS where
  r : Nat
  avail : Nat
  s0 : Rat
  s1 : Rat
  frac : Rat

/-- One pass of the inner `while (frac >= 1.0)` loop of `process`, with an
explicit iteration budget (structural recursion so the kernel can evaluate
it): consume one input sample per whole unit of `frac`; if `avail` drops
below 1 stop early (leaving `s0`/`s1` as they were, possibly with `frac`
still ≥ 1), otherwise shift `s0 := s1` and fetch the next `s1`. -/
def consumeWhileF (size : Nat) (audio : Nat → Int) : Nat → RS → RS
  | 0, st => st
  | fuel + 1, st =>
      if (1 : Rat) ≤ st.frac then
        let frac := st.frac - 1
        let r := (st.r + 1) % size
        let avail := st.avail - 1
        if avail < 1 then
          { r := r, avail := avail, s0 := st.s0, s1 := st.s1, frac := frac }
        else
          consumeWhileF size audio fuel
            { r := r, avail := avail, s0 := st.s1,
              s1 := readInputSampleAt audio ((r + 1) % size), frac := frac }
      else st

/-- The inner `while (frac >= 1.0)` loop of `process`.  Each iteration
decrements `frac` by exactly 1, so the loop runs at most `⌊frac⌋`
iterations; with that as the budget, `consumeWhileF` never exhausts its
fuel while the guard still holds (`fuel = 0` forces `⌊frac⌋ = 0`, i.e.
`frac < 1`, where the JS loop also stops), so this is exactly the source's
while loop. -/
def consumeWhile (size : Nat) (audio : Nat → Int) (st : RS) : RS :=
  consumeWhileF size audio ⌊st.frac⌋.toNat st

/-- The `for (let i = 0; i < frames; i++)` resample loop of `process`.
Returns the final register state, the output block, the number of frames
written by interpolation before any starvation (the rest of the block is
zero-filled, `out.fill(0, i + 1)`), and whether the starvation branch
(`underruns++`) was taken. -/
def renderLoop (size : Nat) (audio : Nat → Int) (step : Rat) :
    RS → Nat → RS × List Rat × Nat × Bool
  | st, 0 => (st, [], 0, false)
  | st, n + 1 =>
      let out0 := st.s0 + (st.s1 - st.s0) * st.frac
      let st1 := consumeWhile size audio { st with frac := st.frac + step }
      if st1.avail < 1 then
        (st1, out0 :: List.replicate n 0, 1, true)
      else
        let rest := renderLoop size audio step st1 n
        (rest.1, out0 :: rest.2.1, rest.2.2.1 + 1, rest.2.2.2)

/-- A block of silence (`out.fill(0)`). -/
def silence (n : Nat) : List Rat := List.replicate n 0

/-- `Math.floor((avail * this.outRate) / this.inRate)`: buffered duration in
output frames. -/
def bufferedFramesOf (p : Proc) : Nat :=
  availableInputSamples p.w p.r p.audioSamples * p.outRate / p.inRate

/-- Tail of `process` from the dead resume check (`if (!this.playing) && ...`)
through the `avail < 2` underrun return and the resample loop; stores
`this.pos = frac` and `Atomics.store(this.ctrl, 1, r)` afterwards.  Returns
the new state, the output block, and the number of interpolated frames. -/
def resamplePhaseE (p : Proc) (frames avail0 : Nat) : Proc × List Rat × Nat :=
  let bufferedFramesNow := avail0 * p.outRate / p.inRate
  -- `if (!this.playing && this.highFrames > 0 && bufferedFramesNow >= this.highFrames)`:
  -- unreachable with `playing = false` in the calling flow, but kept faithfully.
  let p1 := if p.playing = false ∧ 0 < p.highFrames ∧ p.highFrames ≤ bufferedFramesNow
            then { p with playing := true } else p
  if avail0 < 2 then
    ({ p1 with underruns := p1.underruns + 1 }, silence frames, 0)
  else
    let step : Rat := (p1.inRate : Rat) / (p1.outRate : Rat)
    let s0 := readInputSampleAt p1.audio p1.r
    let s1 := readInputSampleAt p1.audio ((p1.r + 1) % p1.audioSamples)
    let res := renderLoop p1.audioSamples p1.audio step
      ⟨p1.r, avail0, s0, s1, p1.pos⟩ frames
    ({ p1 with
        pos := res.1.frac
        r := res.1.r
        underruns := if res.2.2.2 = true then p1.underruns + 1 else p1.underruns },
      res.2.1, res.2.2.1)

/-- The `playing → paused-rebuffering` check of `process` (lines following
the gate): pause unless inside the cooldown window and not critically low. -/
def afterGateE (p : Proc) (frames avail0 : Nat) : Proc × List Rat × Nat :=
  let bufferedFramesNow := avail0 * p.outRate / p.inRate
  if 0 < p.lowFrames ∧ bufferedFramesNow < p.lowFrames then
    let inCooldown := 0 < p.cooldownFrames ∧ p.outCursor < p.cooldownUntil
    let emergency := 0 < p.emergencyLowFrames ∧ bufferedFramesNow ≤ p.emergencyLowFrames
    if inCooldown ∧ ¬emergency then
      resamplePhaseE p frames avail0
    else
      ({ p with
          playing := false
          rebuffers := p.rebuffers + 1
          holdUntil := if 0 < p.holdFrames then p.outCursor + p.holdFrames
            else p.holdUntil },
        silence frames, 0)
  else
    resamplePhaseE p frames avail0

/-- `TtsPlayerProcessor.process`, returning the new state, the output block
and the number of interpolated (non-fill) frames.  `this.outCursor += frames`
happens first; then the uninitialized-buffer guard (modelled by
`audioSamples = 0`), the `!enabled` guard, the end-of-stream drain check,
the start/resume gate, and `afterGateE`. -/
def processE (p0 : Proc) (frames : Nat) : Proc × List Rat × Nat :=
  let p := { p0 with outCursor := p0.outCursor + frames }
  if p.audioSamples = 0 then (p, silence frames, 0)
  else if p.enabled = false then (p, silence frames, 0)
  else
    let avail0 := availableInputSamples p.w p.r p.audioSamples
    if p.eos = true ∧ avail0 = 0 then
      ({ p with enabled := false, playing := false }, silence frames, 0)
    else
      let bufferedFrames := avail0 * p.outRate / p.inRate
      if p.playing = false then
        let holdActive := p.startedOnce = true ∧ p.outCursor < p.holdUntil
        let startThreshold := if p.startedOnce = true ∧ 0 < p.highFrames
          then p.highFrames else p.startFrames
        if startThreshold ≤ bufferedFrames ∨ (startThreshold = 0 ∧ 0 < bufferedFrames) then
          if ¬holdActive then
            afterGateE
              { p with
                  playing := true
                  startedOnce := true
                  cooldownUntil := if 0 < p.cooldownFrames
                    then p.outCursor + p.cooldownFrames
                    else p.cooldownUntil }
              frames avail0
          else (p, silence frames, 0)
        else (p, silence frames, 0)
      else afterGateE p frames avail0

/-- `process` as the audio sink sees it: new state and output block. -/
def process (p : Proc) (frames : Nat) : Proc × List Rat :=
  ((processE p frames).1, (processE p frames).2.1)

/-- Control messages handled by `this.port.onmessage`.  `config` carries the
watermark set `ensureTtsWorklet` always sends in full; `init_shared`
installs the ring views. -/
inductive WorkletMsg where
  | config (inRate startFrames lowFrames highFrames holdFrames cooldownFrames
      emergencyLowFrames : Nat)
  | initShared (audio : Nat → Int) (audioSamples : Nat)
  | eos
  | stop
  | reset

/-- `this.port.onmessage` dispatch (the `Math.max(0, x|0)` clamps are
identities on `Nat`). -/
def onmessage (p : Proc) (m : WorkletMsg) : Proc :=
  match m with
  | .config ir sf lf hf hof cf ef =>
      { p with
          inRate := ir
          enabled := true
          eos := false
          startFrames := sf
          lowFrames := lf
          highFrames := hf
          holdFrames := hof
          cooldownFrames := cf
          emergencyLowFrames := ef }
  | .initShared audio n => { p with audio := audio, audioSamples := n }
  | .eos => { p with eos := true }
  | .stop => { p with enabled := false, playing := false }
  | .reset =>
      { p with
          underruns := 0
          rebuffers := 0
          playing := false
          enabled := true
          eos := false
          holdUntil := 0
          cooldownUntil := 0
          outCursor := 0
          pos := 0 }

/-- The spec's Gate states, read off the processor flags: `enabled = false`
is `stopped`; otherwise `playing` is `playing`; otherwise with `eos` set the
session is `draining`; otherwise `paused-rebuffering` after a first start
and `buffering` before it. -/
inductive GateState where
  | buffering
  | playing
  | pausedRebuffering
  | draining
  | stopped
deriving DecidableEq

/-- Map processor flags to the spec's Gate state. -/
def gateView (p : Proc) : GateState :=
  if p.enabled = false then .stopped
  else if p.playing = true then .playing
  else if p.eos = true then .draining
  else if p.startedOnce = true then .pausedRebuffering
  else .buffering

/-- Fields no `process` phase past the gate ever mutates. -/
def FrozenEq (q p : Proc) : Prop :=
  q.enabled = p.enabled ∧ q.eos = p.eos ∧ q.w = p.w ∧ q.startedOnce = p.startedOnce ∧
  q.outCursor = p.outCursor ∧ q.audioSamples = p.audioSamples ∧ q.inRate = p.inRate ∧
  q.outRate = p.outRate ∧ q.startFrames = p.startFrames ∧ q.lowFrames = p.lowFrames ∧
  q.highFrames = p.highFrames ∧ q.holdFrames = p.holdFrames ∧
  q.cooldownFrames = p.cooldownFrames ∧ q.emergencyLowFrames = p.emergencyLowFrames ∧
  q.cooldownUntil = p.cooldownUntil ∧ q.audio = p.audio

/-- The effective start threshold the gate uses on this tick:
`this.startedOnce && this.highFrames > 0 ? this.highFrames : this.startFrames`. -/
def startThresholdOf (p : Proc) : Nat :=
  if p.startedOnce = true ∧ 0 < p.highFrames then p.highFrames else p.startFrames

/-- Repeated render callbacks: fold `process` over a list of block sizes. -/
def runBlocks (q : Proc) (fs : List Nat) : Proc :=
  fs.foldl (fun s n => (process s n).1) q

/-- A paused-after-rebuffer session: 24000 Hz input, 48000 Hz output, the
watermarks `ensureTtsWorklet` computes at 48000 Hz (start 2000 ms = 96000,
low 20 ms = 960, high 400 ms = 19200, hold 150 ms = 7200, cooldown
2000 ms = 96000, emergency 10 ms = 480), 9600 input samples buffered
(19200 output frames), hold window elapsed. -/
def pausedProc : Proc :=
  { inRate := 24000, outRate := 48000, audioSamples := 288000,
    audio := fun _ => 0, w := 9600, r := 0, underruns := 0, rebuffers := 1,
    playing := false, startedOnce := true, enabled := true, eos := false,
    holdFrames := 7200, holdUntil := 0, cooldownFrames := 96000,
    cooldownUntil := 0, emergencyLowFrames := 480, outCursor := 200000,
    startFrames := 96000, lowFrames := 960, highFrames := 19200, pos := 0 }

/-- A playing session inside the cooldown window that follows the *initial*
start (`cooldownUntil` was set when playback first started), with zero
rebuffers so far, whose buffer has dipped below the low watermark (896
frames < 960) but above the emergency threshold (480). -/
def cooldownDipProc : Proc :=
  { inRate := 24000, outRate := 48000, audioSamples := 288000,
    audio := fun _ => 0, w := 448, r := 0, underruns := 0, rebuffers := 0,
    playing := true, startedOnce := true, enabled := true, eos := false,
    holdFrames := 7200, holdUntil := 0, cooldownFrames := 96000,
    cooldownUntil := 96128, emergencyLowFrames := 480, outCursor := 95231,
    startFrames := 96000, lowFrames := 960, highFrames := 19200, pos := 0 }

/-! ### Exact characterization of the resample loop -/

/-- The input sample `k` positions past the read cursor `r0`, as the loop
reads it (ring index modulo `size`, normalized by `/ 32768`). -/
def sAt (audio : Nat → Int) (size r0 k : Nat) : Rat :=
  readInputSampleAt audio ((r0 + k) % size)

/-- Linear interpolation of the ring contents at fractional position `x`
past the read cursor: `s0 + (s1 - s0) * frac` with `s0 = sAt ⌊x⌋₊`,
`s1 = sAt (⌊x⌋₊ + 1)`, `frac = x - ⌊x⌋₊`. -/
def lerpAt (audio : Nat → Int) (size r0 : Nat) (x : Rat) : Rat :=
  sAt audio size r0 ⌊x⌋₊
    + (sAt audio size r0 (⌊x⌋₊ + 1) - sAt audio size r0 ⌊x⌋₊) * (x - ⌊x⌋₊)

/-- The per-session resampling step `this.inRate / this.outRate`: input
samples consumed per output frame. -/
def stepOf (p : Proc) : Rat := (p.inRate : Rat) / (p.outRate : Rat)

/-- A playing session holding exactly two input samples (the second one is
`16384`, i.e. `1/2` after normalization); ring slot 2 was never written and
still holds the initial zero. -/
def twoSampleProc : Proc :=
  { inRate := 24000, outRate := 48000, audioSamples := 288000,
    audio := fun i => if i = 1 then 16384 else 0,
    w := 2, r := 0, underruns := 0, rebuffers := 0, playing := true,
    startedOnce := true, enabled := true, eos := false,
    holdFrames := 0, holdUntil := 0, cooldownFrames := 0, cooldownUntil := 0,
    emergencyLowFrames := 0, outCursor := 0, startFrames := 0, lowFrames := 0,
    highFrames := 0, pos := 0 }

/-! ### Round trip of the drain loop (C6) -/

/-- Total interpolated output frames over `k` successive render callbacks of
`frames` frames each: the drain loop of a session. -/
def drainEmitted : Proc → Nat → Nat → Nat
  | _, _, 0 => 0
  | p, frames, k + 1 =>
      (processE p frames).2.2 + drainEmitted (processE p frames).1 frames k

/-- A playing end-of-stream session holding 65 buffered input samples at
24000 → 48000 Hz, all watermarks zero (ring contents irrelevant). -/
def drainProc : Proc :=
  { inRate := 24000, outRate := 48000, audioSamples := 288000,
    audio := fun _ => 0,
    w := 65, r := 0, underruns := 0, rebuffers := 0, playing := true,
    startedOnce := true, enabled := true, eos := true,
    holdFrames := 0, holdUntil := 0, cooldownFrames := 0, cooldownUntil := 0,
    emergencyLowFrames := 0, outCursor := 0, startFrames := 0, lowFrames := 0,
    highFrames := 0, pos := 0 }

/-! ### Byte ingest: odd-chunk handling (C2) -/

/-- One little-endian int16 sample assembled from two bytes, as an
`Int16Array` view reads it. -/
def int16OfPair (lo hi : Nat) : Int :=
  let u := lo % 256 + 256 * (hi % 256)
  if u < 32768 then (u : Int) else (u : Int) - 65536

/-- `bytesToInt16(bytes)`: the int16 view of a byte buffer, one sample per
little-endian byte pair (only ever applied to even-length buffers in the
base64 path). -/
def bytesToInt16 : List Nat → List Int
  | lo :: hi :: rest => int16OfPair lo hi :: bytesToInt16 rest
  | _ => []

/-- `new Int16Array(pcmBuf)` over a raw `ArrayBuffer`: on an odd byte
length the constructor throws a `RangeError` (`none`); otherwise the
little-endian int16 view. -/
def int16ArrayOfBuffer (bytes : List Nat) : Option (List Int) :=
  if bytes.length % 2 = 0 then some (bytesToInt16 bytes) else none

/-- The binary `ws.onmessage` path `handleBuffer(buf)` of `page.tsx`,
restricted to its ring effect: an empty chunk returns early; otherwise the
chunk is viewed as an `Int16Array` and written to the shared ring — and if
the view construction throws (odd byte length), the surrounding
`try/catch` of `ws.onmessage` swallows the `RangeError`, leaving the ring
untouched and carrying nothing over. -/
def handleBufferE (rb : Ring) (bytes : List Nat) : Ring :=
  if bytes.length = 0 then rb
  else
    match int16ArrayOfBuffer bytes with
    | some samples => writeToSharedRing rb (fun i => samples.getD i 0) samples.length
    | none => rb

/-- State of the base64 `tts_chunk` ingest path of the earlier revision
(`part_004`): the carried odd byte (`ttsByteRemainderRef`) and all int16
samples delivered to the pending-audio queue so far. -/
structure StitchState where
  rem : List Nat
  samples : List Int

/-- `evenLen = combined.length - (combined.length % 2)`. -/
def evenLenOf (bs : List Nat) : Nat := bs.length - bs.length % 2

/-- One `tts_chunk` message of the base64 path: prepend the carried
remainder, decode all whole byte pairs, and carry the odd tail. -/
def ttsChunkStep (st : StitchState) (bytes : List Nat) : StitchState :=
  let combined := st.rem ++ bytes
  let evenLen := evenLenOf combined
  { rem := combined.drop evenLen
    samples := st.samples ++ bytesToInt16 (combined.take evenLen) }

/-- The base64 ingest path over a whole chunk sequence, starting from an
empty remainder. -/
def ttsChunkRun (chunks : List (List Nat)) : StitchState :=
  chunks.foldl ttsChunkStep ⟨[], []⟩

/-- A freshly initialized 240000-sample ring. -/
def emptyRing : Ring := ⟨240000, 0, 0, fun _ => 0⟩

/-! ### WAV export (C10) -/

/-- `DataView.setUint16(off, v, true)`: two little-endian bytes. -/
def u16le (v : Nat) : List Nat := [v % 256, v / 256 % 256]

/-- `DataView.setUint32(off, v, true)`: four little-endian bytes. -/
def u32le (v : Nat) : List Nat :=
  [v % 256, v / 256 % 256, v / 65536 % 256, v / 16777216 % 256]

/-- Value of a little-endian byte list. -/
def leVal (bs : List Nat) : Nat := bs.foldr (fun b acc => b + 256 * acc) 0

/-- The 44-byte header `pcmToWavBlob` writes, field by field in source
order: `"RIFF"`, riff size `36 + dataSize`, `"WAVE"`, `"fmt "`, fmt-chunk
size 16, PCM format tag 1, `numChannels = 1`, the sample rate,
`byteRate = sampleRate * blockAlign`, `blockAlign = 2`, 16 bits per
sample, `"data"`, `dataSize`. -/
def wavHeader (dataSize sampleRate : Nat) : List Nat :=
  [82, 73, 70, 70] ++ u32le (36 + dataSize)
    ++ [87, 65, 86, 69, 102, 109, 116, 32] ++ u32le 16
    ++ u16le 1 ++ u16le 1 ++ u32le sampleRate ++ u32le (sampleRate * 2)
    ++ u16le 2 ++ u16le 16 ++ [100, 97, 116, 97] ++ u32le dataSize

/-- `pcmToWavBlob(pcm, sampleRate)` as bytes: `pcmByteLen = pcm.byteLength`
sizes the file (`44 + dataSize`, zero-initialized), while the copy
`new Uint8Array(buffer, 44).set(new Uint8Array(pcm.buffer))` transfers the
*entire underlying buffer* of the view — throwing a `RangeError` (`none`)
if that buffer is longer than the data region. -/
def pcmToWavBlob (pcmByteLen : Nat) (bufferBytes : List Nat) (sampleRate : Nat) :
    Option (List Nat) :=
  if pcmByteLen < bufferBytes.length then none
  else some (wavHeader pcmByteLen sampleRate
    ++ (bufferBytes ++ List.replicate (pcmByteLen - bufferBytes.length) 0))

/-- `finalizeTtsRecording` on the binary-frame recording path: guard
(`!ttsRecordEnabled`, `!sr`, no recorded buffers), join the recorded
chunks, truncate the int16 *view* to the even byte length, and export
through `pcmToWavBlob` (which copies the full joined buffer). -/
def finalizeTtsRecording (chunks : List (List Nat)) (sr : Nat) : Option (List Nat) :=
  if sr = 0 ∨ chunks = [] ∨ chunks.flatten.length = 0 then none
  else
    pcmToWavBlob (chunks.flatten.length - chunks.flatten.length % 2) chunks.flatten sr

/-- Scenario D's recorded chunks: 100, 101 and 99 bytes. -/
def wavChunksD : List (List Nat) :=
  [List.replicate 100 0, List.replicate 101 0, List.replicate 99 0]

/-! ## Theorems -/


lemma availableInputSamples_lt_size {w r size : Nat} (hw : w < size) (hr : r < size) :
    availableInputSamples w r size < size := by
  unfold availableInputSamples
  split <;> omega

lemma ringOpStep_lt_size {size : Nat} (hsize : 1 ≤ size) {c : Nat × Nat}
    (hc1 : c.1 < size) (hc2 : c.2 < size) (op : RingOp) :
    (ringOpStep size c op).1 < size ∧ (ringOpStep size c op).2 < size := by
  cases op with
  | write n =>
      constructor
      · exact Nat.mod_lt _ hsize
      · simp only [ringOpStep, writeToSharedRing]
        split
        · exact Nat.mod_lt _ hsize
        · exact hc2
  | consume k =>
      exact ⟨hc1, Nat.mod_lt _ hsize⟩

lemma foldl_ringOpStep_lt_size {size : Nat} (hsize : 1 ≤ size) :
    ∀ (ops : List RingOp) (c : Nat × Nat), c.1 < size → c.2 < size →
      (ops.foldl (ringOpStep size) c).1 < size ∧ (ops.foldl (ringOpStep size) c).2 < size := by
  intro ops
  induction ops with
  | nil => exact fun c h1 h2 => ⟨h1, h2⟩
  | cons op ops ih =>
      intro c h1 h2
      exact ih _ (ringOpStep_lt_size hsize h1 h2 op).1 (ringOpStep_lt_size hsize h1 h2 op).2

/-- C4: for every ring capacity `size ≥ 1` and every sequence of write and
consume operations, at every intermediate time (every prefix of the
sequence) the occupied count, computed as the code computes it
(`w >= r ? w - r : size - (r - w)`, i.e. `(w − r) mod size`), is at most
`size − 1`: one slot always stays free. -/
theorem ring_occupied_le_capacity_sub_one (size : Nat) (hsize : 1 ≤ size)
    (ops : List RingOp) (k : Nat) :
    availableInputSamples (ringRun size (ops.take k)).1 (ringRun size (ops.take k)).2 size
      ≤ size - 1 := by
  have h := foldl_ringOpStep_lt_size hsize (ops.take k) (0, 0) hsize hsize
  have h2 := availableInputSamples_lt_size h.1 h.2
  unfold ringRun
  omega

/-- Witness for `ring_occupied_le_capacity_sub_one` at a concrete run:
capacity 10, write 7, consume 3, write 9, observed after every prefix. -/
theorem ring_occupied_le_capacity_sub_one_witness :
    1 ≤ 10 ∧
      availableInputSamples
        (ringRun 10 ([RingOp.write 7, RingOp.consume 3, RingOp.write 9].take 3)).1
        (ringRun 10 ([RingOp.write 7, RingOp.consume 3, RingOp.write 9].take 3)).2 10 ≤ 10 - 1 :=
  ⟨by decide, ring_occupied_le_capacity_sub_one 10 (by decide)
    [RingOp.write 7, RingOp.consume 3, RingOp.write 9] 3⟩

/-- C3: drop-oldest overflow policy of `writeToSharedRing`.
Part 1 (general): whenever the incoming sample count exceeds the free space
(`size − occupied − 1`), the read cursor is advanced by exactly the excess,
discarding the oldest occupied samples.
Part 2 (Scenario B): writing 260000 samples into an empty ring of capacity
240000 leaves occupied = 239999 (≤ 239999), write cursor 20000, read cursor
advanced to 20001, and for every `k < 239999` the sample the consumer reads
`k` positions after the read cursor is `src (20001 + k)`: the newest 239999
samples are kept in FIFO order, the oldest 20001 discarded. -/
theorem writeToSharedRing_drop_oldest :
    (∀ (rb : Ring) (src : Nat → Int) (n : Nat),
        rb.size - rb.occupied - 1 < n →
        (writeToSharedRing rb src n).r
          = (rb.r + (n - (rb.size - rb.occupied - 1))) % rb.size) ∧
    (∀ (src : Nat → Int),
        (writeToSharedRing ⟨240000, 0, 0, fun _ => 0⟩ src 260000).occupied = 239999 ∧
        (writeToSharedRing ⟨240000, 0, 0, fun _ => 0⟩ src 260000).occupied ≤ 239999 ∧
        (writeToSharedRing ⟨240000, 0, 0, fun _ => 0⟩ src 260000).r = 20001 ∧
        (writeToSharedRing ⟨240000, 0, 0, fun _ => 0⟩ src 260000).w = 20000 ∧
        ∀ k, k < 239999 →
          (writeToSharedRing ⟨240000, 0, 0, fun _ => 0⟩ src 260000).readAt k
            = src (20001 + k)) := by
  constructor
  · intro rb src n hn
    unfold writeToSharedRing
    have hcond : rb.size - Ring.occupied rb - 1 < n := hn
    simp only [Ring.occupied] at hcond
    simp only [Ring.occupied, if_pos hcond]
  · intro src
    have hw : (writeToSharedRing ⟨240000, 0, 0, fun _ => 0⟩ src 260000).w = 20000 := by
      simp only [writeToSharedRing, availableInputSamples]
      norm_num [Nat.min_def]
    have hr : (writeToSharedRing ⟨240000, 0, 0, fun _ => 0⟩ src 260000).r = 20001 := by
      simp only [writeToSharedRing, availableInputSamples]
      norm_num
    have hsz : (writeToSharedRing ⟨240000, 0, 0, fun _ => 0⟩ src 260000).size = 240000 := by
      simp only [writeToSharedRing]
    have hocc : (writeToSharedRing ⟨240000, 0, 0, fun _ => 0⟩ src 260000).occupied = 239999 := by
      simp only [Ring.occupied, hw, hr, hsz, availableInputSamples]
      norm_num
    have hdata : ∀ i,
        (writeToSharedRing ⟨240000, 0, 0, fun _ => 0⟩ src 260000).data i
          = if i < 20000 then src (240000 + i)
            else if i < 240000 then src i else 0 := by
      intro i
      simp only [writeToSharedRing, availableInputSamples]
      norm_num [Nat.min_def]
    refine ⟨hocc, le_of_eq hocc, hr, hw, ?_⟩
    intro k hk
    have hread : (writeToSharedRing ⟨240000, 0, 0, fun _ => 0⟩ src 260000).readAt k
        = (writeToSharedRing ⟨240000, 0, 0, fun _ => 0⟩ src 260000).data
            ((20001 + k) % 240000) := by
      simp only [Ring.readAt, hr, hsz]
    rcases Nat.lt_or_ge k 219999 with h | h
    · have hm : (20001 + k) % 240000 = 20001 + k := Nat.mod_eq_of_lt (by omega)
      rw [hread, hdata, hm, if_neg (by omega), if_pos (by omega)]
    · have hm : (20001 + k) % 240000 = k - 219999 := by omega
      have harg : 240000 + (k - 219999) = 20001 + k := by omega
      rw [hread, hdata, hm, if_pos (by omega), harg]

/-- Witness for `writeToSharedRing_drop_oldest`: instantiate the general part
at a concrete full ring and the scenario part at `src i = i`, `k = 100`. -/
theorem writeToSharedRing_drop_oldest_witness :
    ((⟨10, 4, 2, fun _ => 0⟩ : Ring).size - (⟨10, 4, 2, fun _ => 0⟩ : Ring).occupied - 1 < 9 ∧
      (writeToSharedRing ⟨10, 4, 2, fun _ => 0⟩ (fun i => (i : Int)) 9).r
        = ((⟨10, 4, 2, fun _ => 0⟩ : Ring).r
            + (9 - ((⟨10, 4, 2, fun _ => 0⟩ : Ring).size
                - (⟨10, 4, 2, fun _ => 0⟩ : Ring).occupied - 1))) % 10) ∧
    (100 < 239999 ∧
      (writeToSharedRing ⟨240000, 0, 0, fun _ => 0⟩ (fun i => (i : Int)) 260000).readAt 100
        = ((20001 + 100 : Nat) : Int)) :=
  ⟨⟨by decide, writeToSharedRing_drop_oldest.1 ⟨10, 4, 2, fun _ => 0⟩ (fun i => (i : Int)) 9
      (by decide)⟩,
   ⟨by decide, ((writeToSharedRing_drop_oldest.2 (fun i => (i : Int))).2.2.2.2 100 (by decide))⟩⟩

/-! ### Control-flow lemmas about `processE` -/

lemma resamplePhaseE_playing (p : Proc) (frames avail0 : Nat) (hp : p.playing = true) :
    (resamplePhaseE p frames avail0).1.playing = true := by
  unfold resamplePhaseE
  simp only [hp]
  split <;> simp [hp]

lemma resamplePhaseE_frozenEq (p : Proc) (frames avail0 : Nat) :
    FrozenEq (resamplePhaseE p frames avail0).1 p ∧
      (resamplePhaseE p frames avail0).1.rebuffers = p.rebuffers ∧
      (resamplePhaseE p frames avail0).1.holdUntil = p.holdUntil := by
  unfold resamplePhaseE FrozenEq
  by_cases hc : (p.playing = false ∧ 0 < p.highFrames
      ∧ p.highFrames ≤ avail0 * p.outRate / p.inRate)
  · simp only [if_pos hc]
    split <;> simp
  · simp only [if_neg hc]
    split <;> simp

lemma afterGateE_frozenEq (p : Proc) (frames avail0 : Nat) :
    FrozenEq (afterGateE p frames avail0).1 p := by
  unfold afterGateE
  by_cases h1 : (0 < p.lowFrames ∧ avail0 * p.outRate / p.inRate < p.lowFrames)
  · simp only [if_pos h1]
    by_cases h2 : ((0 < p.cooldownFrames ∧ p.outCursor < p.cooldownUntil)
        ∧ ¬(0 < p.emergencyLowFrames ∧ avail0 * p.outRate / p.inRate ≤ p.emergencyLowFrames))
    · simp only [if_pos h2]
      exact (resamplePhaseE_frozenEq p frames avail0).1
    · simp only [if_neg h2]
      unfold FrozenEq
      simp
  · simp only [if_neg h1]
    exact (resamplePhaseE_frozenEq p frames avail0).1

lemma processE_disabled (p : Proc) (frames : Nat) (h : p.enabled = false) :
    processE p frames = ({ p with outCursor := p.outCursor + frames }, silence frames, 0) := by
  unfold processE
  by_cases h0 : p.audioSamples = 0
  · simp [h0]
  · simp [h0, h]

lemma processE_zero_audio (p : Proc) (frames : Nat) (h : p.audioSamples = 0) :
    processE p frames = ({ p with outCursor := p.outCursor + frames }, silence frames, 0) := by
  unfold processE
  simp [h]

lemma processE_eos_drained (p : Proc) (frames : Nat) (h0 : p.audioSamples ≠ 0)
    (h1 : p.enabled = true) (h2 : p.eos = true)
    (h3 : availableInputSamples p.w p.r p.audioSamples = 0) :
    processE p frames
      = ({ p with outCursor := p.outCursor + frames, enabled := false, playing := false },
          silence frames, 0) := by
  unfold processE
  simp [h0, h1, h2, h3]

lemma processE_playing_branch (p : Proc) (frames : Nat) (h0 : p.audioSamples ≠ 0)
    (h1 : p.enabled = true)
    (h3 : ¬(p.eos = true ∧ availableInputSamples p.w p.r p.audioSamples = 0))
    (hp : p.playing = true) :
    processE p frames
      = afterGateE { p with outCursor := p.outCursor + frames } frames
          (availableInputSamples p.w p.r p.audioSamples) := by
  unfold processE
  simp [h0, h1, h3, hp]

lemma processE_gate_pass (p : Proc) (frames : Nat) (h0 : p.audioSamples ≠ 0)
    (h1 : p.enabled = true)
    (h3 : ¬(p.eos = true ∧ availableInputSamples p.w p.r p.audioSamples = 0))
    (hp : p.playing = false)
    (hpass : startThresholdOf p ≤ bufferedFramesOf p
      ∨ (startThresholdOf p = 0 ∧ 0 < bufferedFramesOf p))
    (hhold : ¬(p.startedOnce = true ∧ p.outCursor + frames < p.holdUntil)) :
    processE p frames
      = afterGateE
          { p with
              outCursor := p.outCursor + frames
              playing := true
              startedOnce := true
              cooldownUntil := if 0 < p.cooldownFrames
                then p.outCursor + frames + p.cooldownFrames
                else p.cooldownUntil }
          frames (availableInputSamples p.w p.r p.audioSamples) := by
  unfold processE
  unfold startThresholdOf bufferedFramesOf at hpass
  simp [h0, h1, h3, hp, hpass, hhold]

lemma processE_gate_fail (p : Proc) (frames : Nat) (h0 : p.audioSamples ≠ 0)
    (h1 : p.enabled = true)
    (h3 : ¬(p.eos = true ∧ availableInputSamples p.w p.r p.audioSamples = 0))
    (hp : p.playing = false)
    (h : ¬((startThresholdOf p ≤ bufferedFramesOf p
        ∨ (startThresholdOf p = 0 ∧ 0 < bufferedFramesOf p))
      ∧ ¬(p.startedOnce = true ∧ p.outCursor + frames < p.holdUntil))) :
    processE p frames
      = ({ p with outCursor := p.outCursor + frames }, silence frames, 0) := by
  unfold processE
  unfold startThresholdOf bufferedFramesOf at h
  by_cases hpass : ((if p.startedOnce = true ∧ 0 < p.highFrames
        then p.highFrames else p.startFrames)
      ≤ availableInputSamples p.w p.r p.audioSamples * p.outRate / p.inRate
    ∨ ((if p.startedOnce = true ∧ 0 < p.highFrames then p.highFrames else p.startFrames) = 0
        ∧ 0 < availableInputSamples p.w p.r p.audioSamples * p.outRate / p.inRate))
  · have hhold : p.startedOnce = true ∧ p.outCursor + frames < p.holdUntil := by
      by_contra hc
      exact h ⟨hpass, hc⟩
    simp [h0, h1, h3, hp, hpass, hhold]
  · simp [h0, h1, h3, hp, hpass]

lemma afterGateE_pause (p : Proc) (frames avail0 : Nat)
    (h : 0 < p.lowFrames ∧ avail0 * p.outRate / p.inRate < p.lowFrames)
    (h2 : ¬((0 < p.cooldownFrames ∧ p.outCursor < p.cooldownUntil)
      ∧ ¬(0 < p.emergencyLowFrames ∧ avail0 * p.outRate / p.inRate ≤ p.emergencyLowFrames))) :
    afterGateE p frames avail0
      = ({ p with
            playing := false
            rebuffers := p.rebuffers + 1
            holdUntil := if 0 < p.holdFrames then p.outCursor + p.holdFrames
              else p.holdUntil },
          silence frames, 0) := by
  unfold afterGateE
  simp only [if_pos h, if_neg h2]

lemma afterGateE_resample (p : Proc) (frames avail0 : Nat)
    (h : ¬(0 < p.lowFrames ∧ avail0 * p.outRate / p.inRate < p.lowFrames)
      ∨ ((0 < p.cooldownFrames ∧ p.outCursor < p.cooldownUntil)
        ∧ ¬(0 < p.emergencyLowFrames ∧ avail0 * p.outRate / p.inRate ≤ p.emergencyLowFrames))) :
    afterGateE p frames avail0 = resamplePhaseE p frames avail0 := by
  unfold afterGateE
  by_cases hA : (0 < p.lowFrames ∧ avail0 * p.outRate / p.inRate < p.lowFrames)
  · rcases h with h | h
    · exact absurd hA h
    · simp only [if_pos hA, if_pos h]
  · simp only [if_neg hA]

lemma afterGateE_playing_cases (p : Proc) (frames avail0 : Nat) (hp : p.playing = true) :
    (afterGateE p frames avail0).1.playing = true ∨
      ((afterGateE p frames avail0).2.1 = silence frames ∧
        (afterGateE p frames avail0).1.r = p.r ∧
        (afterGateE p frames avail0).1.pos = p.pos) := by
  unfold afterGateE
  by_cases h1 : (0 < p.lowFrames ∧ avail0 * p.outRate / p.inRate < p.lowFrames)
  · by_cases h2 : ((0 < p.cooldownFrames ∧ p.outCursor < p.cooldownUntil)
        ∧ ¬(0 < p.emergencyLowFrames ∧ avail0 * p.outRate / p.inRate ≤ p.emergencyLowFrames))
    · simp only [if_pos h1, if_pos h2]
      exact Or.inl (resamplePhaseE_playing p frames avail0 hp)
    · simp only [if_pos h1, if_neg h2]
      simp
  · simp only [if_neg h1]
    exact Or.inl (resamplePhaseE_playing p frames avail0 hp)

/-- C9: a render callback that ends with the gate not in `playing` emits a
block of pure silence and leaves the resampler state alone: the shared read
cursor (`ctrl[1]`) and the fractional carry (`this.pos`) are exactly as
before the callback. -/
theorem process_not_playing_silent (p : Proc) (frames : Nat)
    (h : (process p frames).1.playing = false) :
    (process p frames).2 = silence frames ∧
      (process p frames).1.r = p.r ∧
      (process p frames).1.pos = p.pos := by
  unfold process at *
  by_cases h0 : p.audioSamples = 0
  · rw [processE_zero_audio p frames h0]
    exact ⟨rfl, rfl, rfl⟩
  by_cases h1 : p.enabled = true
  case neg =>
    rw [processE_disabled p frames (by simpa using h1)]
    exact ⟨rfl, rfl, rfl⟩
  by_cases h3 : (p.eos = true ∧ availableInputSamples p.w p.r p.audioSamples = 0)
  · rw [processE_eos_drained p frames h0 h1 h3.1 h3.2]
    exact ⟨rfl, rfl, rfl⟩
  by_cases hp : p.playing = true
  · rw [processE_playing_branch p frames h0 h1 h3 hp] at h ⊢
    rcases afterGateE_playing_cases { p with outCursor := p.outCursor + frames } frames
        (availableInputSamples p.w p.r p.audioSamples) (by simpa using hp) with hq | hq
    · rw [hq] at h
      exact absurd h (by simp)
    · exact ⟨hq.1, by simpa using hq.2.1, by simpa using hq.2.2⟩
  · have hpf : p.playing = false := by simpa using hp
    by_cases hpass : ((startThresholdOf p ≤ bufferedFramesOf p
        ∨ (startThresholdOf p = 0 ∧ 0 < bufferedFramesOf p))
      ∧ ¬(p.startedOnce = true ∧ p.outCursor + frames < p.holdUntil))
    · rw [processE_gate_pass p frames h0 h1 h3 hpf hpass.1 hpass.2] at h ⊢
      rcases afterGateE_playing_cases
          { p with
              outCursor := p.outCursor + frames
              playing := true
              startedOnce := true
              cooldownUntil := if 0 < p.cooldownFrames
                then p.outCursor + frames + p.cooldownFrames
                else p.cooldownUntil } frames
          (availableInputSamples p.w p.r p.audioSamples) rfl with hq | hq
      · rw [hq] at h
        exact absurd h (by simp)
      · exact ⟨hq.1, by simpa using hq.2.1, by simpa using hq.2.2⟩
    · rw [processE_gate_fail p frames h0 h1 h3 hpf hpass]
      exact ⟨rfl, rfl, rfl⟩

/-- Witness for `process_not_playing_silent`: a freshly configured
(buffering, below threshold) processor stays silent. -/
theorem process_not_playing_silent_witness :
    (process
        { inRate := 24000, outRate := 48000, audioSamples := 288000,
          audio := fun _ => 0, w := 100, r := 0, underruns := 0, rebuffers := 0,
          playing := false, startedOnce := false, enabled := true, eos := false,
          holdFrames := 7200, holdUntil := 0, cooldownFrames := 96000,
          cooldownUntil := 0, emergencyLowFrames := 480, outCursor := 0,
          startFrames := 96000, lowFrames := 960, highFrames := 19200, pos := 0 }
        128).1.playing = false ∧
    (process
        { inRate := 24000, outRate := 48000, audioSamples := 288000,
          audio := fun _ => 0, w := 100, r := 0, underruns := 0, rebuffers := 0,
          playing := false, startedOnce := false, enabled := true, eos := false,
          holdFrames := 7200, holdUntil := 0, cooldownFrames := 96000,
          cooldownUntil := 0, emergencyLowFrames := 480, outCursor := 0,
          startFrames := 96000, lowFrames := 960, highFrames := 19200, pos := 0 }
        128).2 = silence 128 :=
  ⟨by decide, (process_not_playing_silent _ 128 (by decide)).1⟩

lemma runBlocks_disabled (fs : List Nat) :
    ∀ (q : Proc), q.enabled = false →
      (runBlocks q fs).enabled = false ∧ (runBlocks q fs).underruns = q.underruns := by
  induction fs with
  | nil => exact fun q hq => ⟨hq, rfl⟩
  | cons n fs ih =>
      intro q hq
      have hstep : (process q n).1.enabled = false ∧ (process q n).1.underruns = q.underruns := by
        unfold process
        rw [processE_disabled q n hq]
        exact ⟨hq, rfl⟩
      have := ih (process q n).1 hstep.1
      have hrun : runBlocks q (n :: fs) = runBlocks (process q n).1 fs := rfl
      rw [hrun]
      exact ⟨this.1, by rw [this.2, hstep.2]⟩

/-- C8: once the end-of-stream flag is set and the buffer has fully drained
(occupied count 0), the very next render callback moves the gate to
`stopped` without counting an underrun, and across every further sequence
of render callbacks the underrun counter never increases again while every
block emitted is pure silence. -/
theorem process_eos_drain_freezes_underruns (p : Proc) (frames : Nat)
    (h0 : p.audioSamples ≠ 0) (h1 : p.enabled = true) (h2 : p.eos = true)
    (h3 : availableInputSamples p.w p.r p.audioSamples = 0) :
    gateView (process p frames).1 = GateState.stopped ∧
      (process p frames).1.underruns = p.underruns ∧
      (∀ fs : List Nat, (runBlocks (process p frames).1 fs).underruns = p.underruns) ∧
      (∀ fs : List Nat, ∀ n : Nat,
        (process (runBlocks (process p frames).1 fs) n).2 = silence n) := by
  have hq : (process p frames).1
      = { p with outCursor := p.outCursor + frames, enabled := false, playing := false } := by
    unfold process
    rw [processE_eos_drained p frames h0 h1 h2 h3]
  have hqe : (process p frames).1.enabled = false := by rw [hq]
  refine ⟨?_, ?_, ?_, ?_⟩
  · rw [hq]
    unfold gateView
    simp
  · rw [hq]
  · intro fs
    rw [(runBlocks_disabled fs _ hqe).2, hq]
  · intro fs n
    have hd := (runBlocks_disabled fs _ hqe).1
    have hout : ∀ (q : Proc), q.enabled = false → (process q n).2 = silence n := by
      intro q hqd
      unfold process
      rw [processE_disabled q n hqd]
    exact hout _ hd

/-- Witness for `process_eos_drain_freezes_underruns`: a drained end-of-stream
session with three further callbacks. -/
theorem process_eos_drain_freezes_underruns_witness :
    (availableInputSamples 40 40 288000 = 0 ∧
        (288000 ≠ 0 ∧ True)) ∧
      gateView
        (process
          { inRate := 24000, outRate := 48000, audioSamples := 288000,
            audio := fun _ => 0, w := 40, r := 40, underruns := 5, rebuffers := 1,
            playing := true, startedOnce := true, enabled := true, eos := true,
            holdFrames := 7200, holdUntil := 0, cooldownFrames := 96000,
            cooldownUntil := 0, emergencyLowFrames := 480, outCursor := 4096,
            startFrames := 96000, lowFrames := 960, highFrames := 19200, pos := 0 }
          128).1 = GateState.stopped ∧
      (runBlocks
        (process
          { inRate := 24000, outRate := 48000, audioSamples := 288000,
            audio := fun _ => 0, w := 40, r := 40, underruns := 5, rebuffers := 1,
            playing := true, startedOnce := true, enabled := true, eos := true,
            holdFrames := 7200, holdUntil := 0, cooldownFrames := 96000,
            cooldownUntil := 0, emergencyLowFrames := 480, outCursor := 4096,
            startFrames := 96000, lowFrames := 960, highFrames := 19200, pos := 0 }
          128).1 [128, 128, 128]).underruns = 5 :=
  ⟨⟨by decide, by decide, trivial⟩,
    (process_eos_drain_freezes_underruns _ 128 (by decide) rfl rfl (by decide)).1,
    (process_eos_drain_freezes_underruns _ 128 (by decide) rfl rfl (by decide)).2.2.1
      [128, 128, 128]⟩

/-- C1 counterexample: on resumption after a pause the gate starts as soon
as `buffered ≥ highFrames` (19200 frames = 400 ms), which is far below the
configured start threshold `startFrames` (96000 frames = 2000 ms), and no
end-of-stream forcing is involved (`eos = false`).  So the code violates
"the Gate never enters `playing` while `buffered < startThreshold`". -/
theorem process_gate_resume_below_start_counterexample :
    pausedProc.playing = false ∧ pausedProc.startedOnce = true ∧
      pausedProc.eos = false ∧ 0 < pausedProc.rebuffers ∧
      (process pausedProc 1).1.playing = true ∧
      bufferedFramesOf pausedProc < pausedProc.startFrames := by
  refine ⟨rfl, rfl, rfl, by decide, ?_, by decide⟩
  decide

/-- C1 amended: the gate never transitions from not-`playing` into `playing`
while the buffered duration is below the *effective* start threshold, which
is `startFrames` before the first start and `highFrames` (when positive)
once playback has started at least once; a zero threshold instead demands a
strictly positive buffer.  (End-of-stream never forces a start in the
code.) -/
theorem process_gate_start_effective_threshold (p : Proc) (frames : Nat)
    (hp : p.playing = false) (h : (process p frames).1.playing = true) :
    startThresholdOf p ≤ bufferedFramesOf p
      ∨ (startThresholdOf p = 0 ∧ 0 < bufferedFramesOf p) := by
  unfold process at h
  by_cases h0 : p.audioSamples = 0
  · rw [processE_zero_audio p frames h0] at h
    simp only at h
    rw [hp] at h
    exact absurd h (by simp)
  by_cases h1 : p.enabled = true
  case neg =>
    rw [processE_disabled p frames (by simpa using h1)] at h
    simp only at h
    rw [hp] at h
    exact absurd h (by simp)
  by_cases h3 : (p.eos = true ∧ availableInputSamples p.w p.r p.audioSamples = 0)
  · rw [processE_eos_drained p frames h0 h1 h3.1 h3.2] at h
    exact absurd h (by simp)
  by_cases hpass : ((startThresholdOf p ≤ bufferedFramesOf p
      ∨ (startThresholdOf p = 0 ∧ 0 < bufferedFramesOf p))
    ∧ ¬(p.startedOnce = true ∧ p.outCursor + frames < p.holdUntil))
  · exact hpass.1
  · rw [processE_gate_fail p frames h0 h1 h3 hp hpass] at h
    simp only at h
    rw [hp] at h
    exact absurd h (by simp)

/-- Witness for `process_gate_start_effective_threshold`: a first start from
`buffering` with 2 s of audio buffered. -/
theorem process_gate_start_effective_threshold_witness :
    ({ pausedProc with w := 48000, startedOnce := false, rebuffers := 0 } : Proc).playing = false ∧
      (process { pausedProc with w := 48000, startedOnce := false, rebuffers := 0 } 1).1.playing
        = true ∧
      (startThresholdOf { pausedProc with w := 48000, startedOnce := false, rebuffers := 0 }
          ≤ bufferedFramesOf { pausedProc with w := 48000, startedOnce := false, rebuffers := 0 }
        ∨ (startThresholdOf { pausedProc with w := 48000, startedOnce := false, rebuffers := 0 } = 0
            ∧ 0 < bufferedFramesOf
                { pausedProc with w := 48000, startedOnce := false, rebuffers := 0 })) :=
  ⟨rfl, by decide,
    process_gate_start_effective_threshold _ 1 rfl (by decide)⟩

/-- C7 counterexample: the cooldown window is armed on *every* entry into
`playing`, including the very first start, not only "following a previous
rebuffer".  Here `buffered = 896 < lowFrames = 960`, no rebuffer has ever
happened (`rebuffers = 0`), yet the tick keeps playing because the
initial-start cooldown is still active — the claim's "transitions to
paused-rebuffering exactly when buffered < lowThreshold, unless within a
cooldown window following a previous rebuffer" is false on this tick. -/
theorem process_pause_cooldown_counterexample :
    cooldownDipProc.playing = true ∧ cooldownDipProc.rebuffers = 0 ∧
      bufferedFramesOf cooldownDipProc < cooldownDipProc.lowFrames ∧
      cooldownDipProc.emergencyLowFrames < bufferedFramesOf cooldownDipProc ∧
      (process cooldownDipProc 1).1.playing = true ∧
      (process cooldownDipProc 1).1.rebuffers = 0 := by
  refine ⟨rfl, rfl, by decide, by decide, ?_, ?_⟩ <;> decide

lemma processE_playing_pause (p : Proc) (frames : Nat) (h0 : p.audioSamples ≠ 0)
    (h1 : p.enabled = true)
    (h3 : ¬(p.eos = true ∧ availableInputSamples p.w p.r p.audioSamples = 0))
    (hp : p.playing = true)
    (hlo : 0 < p.lowFrames ∧ bufferedFramesOf p < p.lowFrames)
    (hcd : ¬((0 < p.cooldownFrames ∧ p.outCursor + frames < p.cooldownUntil)
      ∧ ¬(0 < p.emergencyLowFrames ∧ bufferedFramesOf p ≤ p.emergencyLowFrames))) :
    processE p frames
      = ({ p with
            outCursor := p.outCursor + frames
            playing := false
            rebuffers := p.rebuffers + 1
            holdUntil := if 0 < p.holdFrames then p.outCursor + frames + p.holdFrames
              else p.holdUntil },
          silence frames, 0) := by
  rw [processE_playing_branch p frames h0 h1 h3 hp]
  rw [afterGateE_pause { p with outCursor := p.outCursor + frames } frames
    (availableInputSamples p.w p.r p.audioSamples) hlo hcd]

lemma processE_playing_continue (p : Proc) (frames : Nat) (h0 : p.audioSamples ≠ 0)
    (h1 : p.enabled = true)
    (h3 : ¬(p.eos = true ∧ availableInputSamples p.w p.r p.audioSamples = 0))
    (hp : p.playing = true)
    (h : ¬(0 < p.lowFrames ∧ bufferedFramesOf p < p.lowFrames)
      ∨ ((0 < p.cooldownFrames ∧ p.outCursor + frames < p.cooldownUntil)
        ∧ ¬(0 < p.emergencyLowFrames ∧ bufferedFramesOf p ≤ p.emergencyLowFrames))) :
    (processE p frames).1.playing = true ∧ (processE p frames).1.enabled = p.enabled ∧
      (processE p frames).1.rebuffers = p.rebuffers := by
  rw [processE_playing_branch p frames h0 h1 h3 hp]
  rw [afterGateE_resample { p with outCursor := p.outCursor + frames } frames
    (availableInputSamples p.w p.r p.audioSamples) h]
  have hfr := (resamplePhaseE_frozenEq { p with outCursor := p.outCursor + frames } frames
    (availableInputSamples p.w p.r p.audioSamples))
  exact ⟨resamplePhaseE_playing { p with outCursor := p.outCursor + frames } frames
      (availableInputSamples p.w p.r p.audioSamples) hp,
    hfr.1.1, hfr.2.1⟩

lemma processE_resume_state (p : Proc) (frames : Nat) (h0 : p.audioSamples ≠ 0)
    (h1 : p.enabled = true)
    (h3 : ¬(p.eos = true ∧ availableInputSamples p.w p.r p.audioSamples = 0))
    (hp : p.playing = false)
    (hpass : startThresholdOf p ≤ bufferedFramesOf p
      ∨ (startThresholdOf p = 0 ∧ 0 < bufferedFramesOf p))
    (hhold : ¬(p.startedOnce = true ∧ p.outCursor + frames < p.holdUntil))
    (hnolow : ¬(0 < p.lowFrames ∧ bufferedFramesOf p < p.lowFrames)) :
    (processE p frames).1.playing = true := by
  rw [processE_gate_pass p frames h0 h1 h3 hp hpass hhold]
  rw [afterGateE_resample
    { p with
        outCursor := p.outCursor + frames
        playing := true
        startedOnce := true
        cooldownUntil := if 0 < p.cooldownFrames
          then p.outCursor + frames + p.cooldownFrames
          else p.cooldownUntil } frames
    (availableInputSamples p.w p.r p.audioSamples) (Or.inl hnolow)]
  exact resamplePhaseE_playing _ frames _ rfl

/-- C7 amended: per render tick, with the session watermarks all positive
and `lowFrames ≤ highFrames`: (a) a playing gate moves to
`paused-rebuffering` exactly when `buffered < lowFrames` and it is *not*
inside the cooldown window armed at the most recent entry into `playing`
(initial start or resume, not only after a previous rebuffer) with
`buffered` still above the emergency threshold; (b) on pausing, the
rebuffer counter increments and the mandatory hold window
`holdUntil = cursor + holdFrames` begins; (c) a paused gate resumes exactly
when `buffered ≥ highFrames` and the hold window has elapsed. -/
theorem process_pause_resume_hysteresis (p : Proc) (frames : Nat)
    (h0 : p.audioSamples ≠ 0) (h1 : p.enabled = true) (he : p.eos = false)
    (hso : p.startedOnce = true) (hlow : 0 < p.lowFrames) (hhigh : 0 < p.highFrames)
    (hlh : p.lowFrames ≤ p.highFrames) (hhf : 0 < p.holdFrames)
    (hem : 0 < p.emergencyLowFrames) :
    (p.playing = true →
      (gateView (process p frames).1 = GateState.pausedRebuffering ↔
        (bufferedFramesOf p < p.lowFrames ∧
          ¬((0 < p.cooldownFrames ∧ p.outCursor + frames < p.cooldownUntil)
            ∧ p.emergencyLowFrames < bufferedFramesOf p)))) ∧
    (p.playing = true → gateView (process p frames).1 = GateState.pausedRebuffering →
      (process p frames).1.rebuffers = p.rebuffers + 1 ∧
        (process p frames).1.holdUntil = p.outCursor + frames + p.holdFrames) ∧
    (p.playing = false →
      ((process p frames).1.playing = true ↔
        (p.highFrames ≤ bufferedFramesOf p ∧ p.holdUntil ≤ p.outCursor + frames))) := by
  have h3 : ¬(p.eos = true ∧ availableInputSamples p.w p.r p.audioSamples = 0) := by
    simp [he]
  refine ⟨?_, ?_, ?_⟩
  · intro hp
    by_cases hdip : bufferedFramesOf p < p.lowFrames
    · by_cases hcd : ((0 < p.cooldownFrames ∧ p.outCursor + frames < p.cooldownUntil)
          ∧ ¬(0 < p.emergencyLowFrames ∧ bufferedFramesOf p ≤ p.emergencyLowFrames))
      · have hc := processE_playing_continue p frames h0 h1 h3 hp (Or.inr hcd)
        constructor
        · intro hgv
          exfalso
          unfold process at hgv
          simp [gateView, hc.1, hc.2.1, h1] at hgv
        · intro hcon
          exfalso
          apply hcon.2
          refine ⟨hcd.1, ?_⟩
          have h5 : ¬(bufferedFramesOf p ≤ p.emergencyLowFrames) :=
            fun hb => hcd.2 ⟨hem, hb⟩
          omega
      · have heq := processE_playing_pause p frames h0 h1 h3 hp ⟨hlow, hdip⟩ hcd
        unfold process
        rw [heq]
        constructor
        · intro _
          refine ⟨hdip, fun hcon => hcd ⟨hcon.1, fun hb => by omega⟩⟩
        · intro _
          simp [gateView, h1, he, hso]
    · have hc := processE_playing_continue p frames h0 h1 h3 hp
        (Or.inl (fun hx => hdip hx.2))
      constructor
      · intro hgv
        exfalso
        unfold process at hgv
        simp [gateView, hc.1, hc.2.1, h1] at hgv
      · intro hcon
        exact absurd hcon.1 hdip
  · intro hp hgv
    by_cases hdip : bufferedFramesOf p < p.lowFrames
    · by_cases hcd : ((0 < p.cooldownFrames ∧ p.outCursor + frames < p.cooldownUntil)
          ∧ ¬(0 < p.emergencyLowFrames ∧ bufferedFramesOf p ≤ p.emergencyLowFrames))
      · exfalso
        have hc := processE_playing_continue p frames h0 h1 h3 hp (Or.inr hcd)
        unfold process at hgv
        simp [gateView, hc.1, hc.2.1, h1] at hgv
      · have heq := processE_playing_pause p frames h0 h1 h3 hp ⟨hlow, hdip⟩ hcd
        unfold process
        rw [heq]
        simp [hhf]
    · exfalso
      have hc := processE_playing_continue p frames h0 h1 h3 hp
        (Or.inl (fun hx => hdip hx.2))
      unfold process at hgv
      simp [gateView, hc.1, hc.2.1, h1] at hgv
  · intro hp
    have hthr : startThresholdOf p = p.highFrames := by
      unfold startThresholdOf
      rw [if_pos ⟨hso, hhigh⟩]
    by_cases hpass : ((startThresholdOf p ≤ bufferedFramesOf p
        ∨ (startThresholdOf p = 0 ∧ 0 < bufferedFramesOf p))
      ∧ ¬(p.startedOnce = true ∧ p.outCursor + frames < p.holdUntil))
    · have hbh : p.highFrames ≤ bufferedFramesOf p := by
        rcases hpass.1 with hcase | hcase
        · rwa [hthr] at hcase
        · rw [hthr] at hcase
          omega
      have hnolow : ¬(0 < p.lowFrames ∧ bufferedFramesOf p < p.lowFrames) := by
        simp only [not_and]
        intro _
        omega
      have hps := processE_resume_state p frames h0 h1 h3 hp hpass.1 hpass.2 hnolow
      have hnothold : p.holdUntil ≤ p.outCursor + frames := by
        have := hpass.2
        simp only [hso, true_and] at this
        omega
      unfold process
      constructor
      · intro _
        exact ⟨hbh, hnothold⟩
      · intro _
        exact hps
    · unfold process
      rw [processE_gate_fail p frames h0 h1 h3 hp hpass]
      simp only []
      rw [hp]
      constructor
      · intro hfalse
        exact absurd hfalse (by simp)
      · intro hcon
        exfalso
        apply hpass
        refine ⟨Or.inl (by rw [hthr]; exact hcon.1), ?_⟩
        simp only [hso, true_and]
        omega

/-- Witness for `process_pause_resume_hysteresis`: the same dipped state as
the counterexample but with the cooldown window elapsed — this tick pauses. -/
theorem process_pause_resume_hysteresis_witness :
    ({ cooldownDipProc with cooldownUntil := 0 } : Proc).playing = true ∧
      bufferedFramesOf { cooldownDipProc with cooldownUntil := 0 }
        < ({ cooldownDipProc with cooldownUntil := 0 } : Proc).lowFrames ∧
      gateView (process { cooldownDipProc with cooldownUntil := 0 } 1).1
        = GateState.pausedRebuffering :=
  ⟨rfl, by decide,
    ((process_pause_resume_hysteresis { cooldownDipProc with cooldownUntil := 0 } 1
        (by decide) rfl rfl rfl (by decide) (by decide) (by decide) (by decide)
        (by decide)).1 rfl).mpr ⟨by decide, by decide⟩⟩

lemma mod_succ_mod (a n : Nat) : (a % n + 1) % n = (a + 1) % n :=
  Nat.ModEq.add_right 1 (Nat.mod_modEq a n)

lemma floor_toNat_sub_one {q : Rat} (h : (1 : Rat) ≤ q) :
    ⌊q - 1⌋.toNat = ⌊q⌋.toNat - 1 := by
  have h1 : ⌊q - (1 : Rat)⌋ = ⌊q⌋ - 1 := by
    have := Int.floor_sub_int q 1
    simpa using this
  have h2 : (1 : Int) ≤ ⌊q⌋ := Int.le_floor.mpr (by simpa using h)
  omega

lemma consumeWhileF_total (size : Nat) (audio : Nat → Int) :
    ∀ (d : Nat) (fuel : Nat) (st : RS) (r0 c : Nat),
      st.r = (r0 + c) % size →
      st.s0 = sAt audio size r0 c →
      st.s1 = sAt audio size r0 (c + 1) →
      0 ≤ st.frac →
      ⌊st.frac⌋.toNat = d →
      d < st.avail →
      d ≤ fuel →
      consumeWhileF size audio fuel st
        = { r := (r0 + c + d) % size, avail := st.avail - d,
            s0 := sAt audio size r0 (c + d), s1 := sAt audio size r0 (c + d + 1),
            frac := st.frac - d } := by
  intro d
  induction d with
  | zero =>
      intro fuel st r0 c hr hs0 hs1 hpos hfl _ _
      have hlt : st.frac < 1 := by
        by_contra hge
        push_neg at hge
        have : (1 : Int) ≤ ⌊st.frac⌋ := Int.le_floor.mpr (by simpa using hge)
        omega
      have hres : consumeWhileF size audio fuel st = st := by
        cases fuel with
        | zero => rfl
        | succ f =>
            rw [consumeWhileF]
            rw [if_neg (not_le.mpr hlt)]
      rw [hres]
      cases st
      simp_all
  | succ d ih =>
      intro fuel st r0 c hr hs0 hs1 hpos hfl havail hfuel
      obtain ⟨f, rfl⟩ : ∃ f, fuel = f + 1 := ⟨fuel - 1, by omega⟩
      have hge : (1 : Rat) ≤ st.frac := by
        by_contra hlt
        push_neg at hlt
        have : ⌊st.frac⌋ = 0 := by
          have h0 : (0 : Int) ≤ ⌊st.frac⌋ := Int.le_floor.mpr (by simpa using hpos)
          have h1 : ⌊st.frac⌋ < 1 := Int.floor_lt.mpr (by simpa using hlt)
          omega
        omega
      rw [consumeWhileF, if_pos hge]
      have havail1 : ¬(st.avail - 1 < 1) := by omega
      simp only [if_neg havail1]
      have hrec := ih f
        { r := (st.r + 1) % size, avail := st.avail - 1, s0 := st.s1,
          s1 := readInputSampleAt audio (((st.r + 1) % size + 1) % size),
          frac := st.frac - 1 } r0 (c + 1)
        (by
          show (st.r + 1) % size = (r0 + (c + 1)) % size
          rw [hr, mod_succ_mod (r0 + c) size,
            show r0 + c + 1 = r0 + (c + 1) from by omega])
        (by
          show st.s1 = sAt audio size r0 (c + 1)
          rw [hs1])
        (by
          show readInputSampleAt audio (((st.r + 1) % size + 1) % size)
            = sAt audio size r0 (c + 1 + 1)
          rw [hr, mod_succ_mod (r0 + c) size, mod_succ_mod (r0 + c + 1) size,
            show r0 + c + 1 + 1 = r0 + (c + 1 + 1) from by omega]
          rfl)
        (by
          show (0 : Rat) ≤ st.frac - 1
          linarith)
        (by
          show ⌊st.frac - (1 : Rat)⌋.toNat = d
          rw [floor_toNat_sub_one hge, hfl]
          omega)
        (by
          show d < st.avail - 1
          omega)
        (by omega)
      rw [hrec]
      have harith1 : r0 + (c + 1) + d = r0 + c + (d + 1) := by omega
      have harith2 : c + 1 + d = c + (d + 1) := by omega
      have harith4 : st.avail - 1 - d = st.avail - (d + 1) := by omega
      have harith5 : st.frac - 1 - (d : Rat) = st.frac - (((d + 1 : Nat) : Rat)) := by
        push_cast
        ring
      rw [harith1, harith2, harith4, harith5]

lemma consumeWhileF_break (size : Nat) (audio : Nat → Int) :
    ∀ (k : Nat) (fuel : Nat) (st : RS) (r0 c : Nat),
      st.r = (r0 + c) % size →
      st.s0 = sAt audio size r0 c →
      st.s1 = sAt audio size r0 (c + 1) →
      0 ≤ st.frac →
      st.avail = k →
      1 ≤ k →
      k ≤ ⌊st.frac⌋.toNat →
      k ≤ fuel →
      consumeWhileF size audio fuel st
        = { r := (r0 + c + k) % size, avail := 0,
            s0 := sAt audio size r0 (c + k - 1), s1 := sAt audio size r0 (c + k),
            frac := st.frac - k } := by
  intro k
  induction k with
  | zero => omega
  | succ k ih =>
      intro fuel st r0 c hr hs0 hs1 hpos havail hk1 hkfl hkfuel
      obtain ⟨f, rfl⟩ : ∃ f, fuel = f + 1 := ⟨fuel - 1, by omega⟩
      have hge : (1 : Rat) ≤ st.frac := by
        by_contra hlt
        push_neg at hlt
        have h1 : ⌊st.frac⌋ < 1 := Int.floor_lt.mpr (by simpa using hlt)
        have h0 : (0 : Int) ≤ ⌊st.frac⌋ := Int.le_floor.mpr (by simpa using hpos)
        omega
      rw [consumeWhileF, if_pos hge]
      rcases Nat.eq_or_lt_of_le hk1 with hk | hk
      · -- k + 1 = 1 : this consume empties the buffer and breaks
        have hz : k = 0 := by omega
        subst hz
        have hbreak : st.avail - 1 < 1 := by omega
        simp only [if_pos hbreak]
        rw [RS.mk.injEq]
        refine ⟨?_, by omega, hs0, hs1, by push_cast; ring⟩
        rw [hr, mod_succ_mod (r0 + c) size]
      · -- k + 1 ≥ 2 : consume one and recurse
        have hnb : ¬(st.avail - 1 < 1) := by omega
        simp only [if_neg hnb]
        have hrec := ih f
          { r := (st.r + 1) % size, avail := st.avail - 1, s0 := st.s1,
            s1 := readInputSampleAt audio (((st.r + 1) % size + 1) % size),
            frac := st.frac - 1 } r0 (c + 1)
          (by
            show (st.r + 1) % size = (r0 + (c + 1)) % size
            rw [hr, mod_succ_mod (r0 + c) size,
              show r0 + c + 1 = r0 + (c + 1) from by omega])
          (by
            show st.s1 = sAt audio size r0 (c + 1)
            rw [hs1])
          (by
            show readInputSampleAt audio (((st.r + 1) % size + 1) % size)
              = sAt audio size r0 (c + 1 + 1)
            rw [hr, mod_succ_mod (r0 + c) size, mod_succ_mod (r0 + c + 1) size,
              show r0 + c + 1 + 1 = r0 + (c + 1 + 1) from by omega]
            rfl)
          (by
            show (0 : Rat) ≤ st.frac - 1
            linarith)
          (by
            show st.avail - 1 = k
            omega)
          (by omega)
          (by
            show k ≤ ⌊st.frac - (1 : Rat)⌋.toNat
            rw [floor_toNat_sub_one hge]
            omega)
          (by omega)
        rw [hrec]
        have harith1 : r0 + (c + 1) + k = r0 + c + (k + 1) := by omega
        have harith3 : c + 1 + k = c + (k + 1) := by omega
        have harith5 : st.frac - 1 - (k : Rat) = st.frac - (((k + 1 : Nat)) : Rat) := by
          push_cast
          ring
        rw [harith1, harith3, harith5]

/-- `consumeWhile` when the buffer does not starve: consumes exactly
`⌊frac⌋` samples, shifting the bracketing pair accordingly. -/
lemma consumeWhile_total (size : Nat) (audio : Nat → Int) :
    ∀ (d : Nat) (st : RS) (r0 c : Nat),
      st.r = (r0 + c) % size →
      st.s0 = sAt audio size r0 c →
      st.s1 = sAt audio size r0 (c + 1) →
      0 ≤ st.frac →
      ⌊st.frac⌋.toNat = d →
      d < st.avail →
      consumeWhile size audio st
        = { r := (r0 + c + d) % size, avail := st.avail - d,
            s0 := sAt audio size r0 (c + d), s1 := sAt audio size r0 (c + d + 1),
            frac := st.frac - d } := by
  intro d st r0 c hr hs0 hs1 hpos hfl havail
  unfold consumeWhile
  exact consumeWhileF_total size audio d ⌊st.frac⌋.toNat st r0 c
    hr hs0 hs1 hpos hfl havail (by omega)

/-- `consumeWhile` when the buffer starves mid-consumption: the loop breaks
after consuming all `st.avail` remaining samples, leaving the bracketing
pair one short of the consumed position and possibly `frac ≥ 1`. -/
lemma consumeWhile_break (size : Nat) (audio : Nat → Int) :
    ∀ (k : Nat) (st : RS) (r0 c : Nat),
      st.r = (r0 + c) % size →
      st.s0 = sAt audio size r0 c →
      st.s1 = sAt audio size r0 (c + 1) →
      0 ≤ st.frac →
      st.avail = k →
      1 ≤ k →
      k ≤ ⌊st.frac⌋.toNat →
      consumeWhile size audio st
        = { r := (r0 + c + k) % size, avail := 0,
            s0 := sAt audio size r0 (c + k - 1), s1 := sAt audio size r0 (c + k),
            frac := st.frac - k } := by
  intro k st r0 c hr hs0 hs1 hpos havail hk1 hkfl
  unfold consumeWhile
  exact consumeWhileF_break size audio k ⌊st.frac⌋.toNat st r0 c
    hr hs0 hs1 hpos havail hk1 hkfl (by omega)

lemma floor_shift_toNat {x step : Rat} (hx : 0 ≤ x) (hstep : 0 ≤ step) :
    ⌊(x - (⌊x⌋₊ : Rat)) + step⌋.toNat = ⌊x + step⌋₊ - ⌊x⌋₊ := by
  have h1 : (x - (⌊x⌋₊ : Rat)) + step = (x + step) - (⌊x⌋₊ : Rat) := by ring
  rw [h1, Int.floor_sub_nat]
  have h2 : ⌊x + step⌋.toNat = ⌊x + step⌋₊ := Int.floor_toNat (x + step)
  have h3 : (0 : Int) ≤ ⌊x + step⌋ := Int.floor_nonneg.mpr (by positivity)
  have h4 : ⌊x⌋₊ ≤ ⌊x + step⌋₊ := Nat.floor_mono (by linarith)
  omega

lemma floor_mono_step {x step : Rat} (hstep : 0 ≤ step) (n : Nat) :
    ⌊x + step⌋₊ ≤ ⌊x + ((n + 1 : Nat) : Rat) * step⌋₊ := by
  apply Nat.floor_mono
  have : (1 : Rat) ≤ ((n + 1 : Nat) : Rat) := by
    push_cast
    linarith [Nat.cast_nonneg (α := Rat) n]
  nlinarith

/-- The resample loop when enough input is buffered: emits exactly `n`
interpolated frames, each the linear interpolation of the ring contents at
the running fractional position, and advances the read state to the final
position. -/
lemma renderLoop_no_starve (size : Nat) (audio : Nat → Int) (step : Rat)
    (hstep : 0 ≤ step) (r0 : Nat) :
    ∀ (n : Nat) (st : RS) (x : Rat) (A : Nat),
      0 ≤ x →
      st.r = (r0 + ⌊x⌋₊) % size →
      st.avail = A - ⌊x⌋₊ →
      st.s0 = sAt audio size r0 ⌊x⌋₊ →
      st.s1 = sAt audio size r0 (⌊x⌋₊ + 1) →
      st.frac = x - (⌊x⌋₊ : Rat) →
      ⌊x + (n : Rat) * step⌋₊ + 1 ≤ A →
      renderLoop size audio step st n
        = ({ r := (r0 + ⌊x + (n : Rat) * step⌋₊) % size,
             avail := A - ⌊x + (n : Rat) * step⌋₊,
             s0 := sAt audio size r0 ⌊x + (n : Rat) * step⌋₊,
             s1 := sAt audio size r0 (⌊x + (n : Rat) * step⌋₊ + 1),
             frac := (x + (n : Rat) * step) - (⌊x + (n : Rat) * step⌋₊ : Rat) },
           (List.range n).map (fun (i : Nat) => lerpAt audio size r0 (x + (i : Rat) * step)),
           n, false) := by
  intro n
  induction n with
  | zero =>
      intro st x A hx hr hav hs0 hs1 hf hA
      simp only [Nat.cast_zero, zero_mul, add_zero, List.range_zero, List.map_nil]
      show (st, ([] : List Rat), 0, false) = _
      rcases st with ⟨str, stav, sts0, sts1, stfr⟩
      simp only at hr hav hs0 hs1 hf
      rw [hr, hav, hs0, hs1, hf]
  | succ n ih =>
      intro st x A hx hr hav hs0 hs1 hf hA
      have hfloorx_le : ⌊x⌋₊ ≤ ⌊x + step⌋₊ := Nat.floor_mono (by linarith)
      have hstep_le : ⌊x + step⌋₊ ≤ ⌊x + ((n + 1 : Nat) : Rat) * step⌋₊ :=
        floor_mono_step hstep n
      have hA2 : ⌊x + step⌋₊ + 1 ≤ A := by omega
      have hcw := consumeWhile_total size audio (⌊x + step⌋₊ - ⌊x⌋₊)
        { st with frac := st.frac + step } r0 ⌊x⌋₊
        (by
          show st.r = (r0 + ⌊x⌋₊) % size
          exact hr)
        (by
          show st.s0 = sAt audio size r0 ⌊x⌋₊
          exact hs0)
        (by
          show st.s1 = sAt audio size r0 (⌊x⌋₊ + 1)
          exact hs1)
        (by
          show (0 : Rat) ≤ st.frac + step
          have : (0 : Rat) ≤ x - (⌊x⌋₊ : Rat) := by
            have := Nat.floor_le hx
            linarith
          rw [hf]
          linarith)
        (by
          show ⌊st.frac + step⌋.toNat = ⌊x + step⌋₊ - ⌊x⌋₊
          rw [hf]
          exact floor_shift_toNat hx hstep)
        (by
          show ⌊x + step⌋₊ - ⌊x⌋₊ < st.avail
          rw [hav]
          omega)
      simp only [renderLoop]
      rw [hcw]
      have e1 : ⌊x⌋₊ + (⌊x + step⌋₊ - ⌊x⌋₊) = ⌊x + step⌋₊ := by omega
      have e2 : r0 + ⌊x⌋₊ + (⌊x + step⌋₊ - ⌊x⌋₊) = r0 + ⌊x + step⌋₊ := by omega
      have e3 : st.avail - (⌊x + step⌋₊ - ⌊x⌋₊) = A - ⌊x + step⌋₊ := by
        rw [hav]
        omega
      have e4 : st.frac + step - ((⌊x + step⌋₊ - ⌊x⌋₊ : Nat) : Rat)
          = (x + step) - (⌊x + step⌋₊ : Rat) := by
        rw [hf, Nat.cast_sub hfloorx_le]
        ring
      rw [e2, e3, e4]
      rw [show ⌊x⌋₊ + (⌊x + step⌋₊ - ⌊x⌋₊) = ⌊x + step⌋₊ from e1]
      have hnb : ¬((A - ⌊x + step⌋₊ : Nat) < 1) := by omega
      simp only [if_neg hnb]
      have hxs : (0 : Rat) ≤ x + step := by linarith
      have hrec := ih
        { r := (r0 + ⌊x + step⌋₊) % size, avail := A - ⌊x + step⌋₊,
          s0 := sAt audio size r0 ⌊x + step⌋₊,
          s1 := sAt audio size r0 (⌊x + step⌋₊ + 1),
          frac := x + step - (⌊x + step⌋₊ : Rat) }
        (x + step) A hxs rfl rfl rfl rfl rfl
        (by
          show ⌊x + step + (n : Rat) * step⌋₊ + 1 ≤ A
          rw [show x + step + (n : Rat) * step = x + ((n + 1 : Nat) : Rat) * step by
            push_cast
            ring]
          exact hA)
      rw [hrec]
      have hx1 : x + step + (n : Rat) * step = x + ((n + 1 : Nat) : Rat) * step := by
        push_cast
        ring
      rw [hx1]
      have hout0 : st.s0 + (st.s1 - st.s0) * st.frac = lerpAt audio size r0 x := by
        rw [hs0, hs1, hf]
        rfl
      rw [hout0]
      have hlist : lerpAt audio size r0 x
            :: (List.range n).map (fun (i : Nat) => lerpAt audio size r0 (x + step + (i : Rat) * step))
          = (List.range (n + 1)).map (fun (i : Nat) => lerpAt audio size r0 (x + (i : Rat) * step)) := by
        rw [List.range_succ_eq_map, List.map_cons, List.map_map]
        congr 1
        · simp
        · apply List.map_congr_left
          intro i _
          simp only [Function.comp]
          congr 1
          push_cast
          ring
      rw [hlist]

/-- The resample loop when the buffer starves at frame `m` (`m < n`): the
first `m + 1` frames are interpolated, the rest of the block is zero-filled
(`out.fill(0, i + 1)`), the starvation branch (`underruns++`) is taken, and
the loop ends with the read cursor advanced past all `A` samples. -/
lemma renderLoop_starve (size : Nat) (audio : Nat → Int) (step : Rat)
    (hstep : 0 ≤ step) (r0 : Nat) :
    ∀ (m n : Nat) (st : RS) (x : Rat) (A : Nat),
      0 ≤ x →
      st.r = (r0 + ⌊x⌋₊) % size →
      st.avail = A - ⌊x⌋₊ →
      st.s0 = sAt audio size r0 ⌊x⌋₊ →
      st.s1 = sAt audio size r0 (⌊x⌋₊ + 1) →
      st.frac = x - (⌊x⌋₊ : Rat) →
      (∀ i : Nat, i ≤ m → ⌊x + (i : Rat) * step⌋₊ < A) →
      A ≤ ⌊x + ((m + 1 : Nat) : Rat) * step⌋₊ →
      m < n →
      renderLoop size audio step st n
        = ({ r := (r0 + A) % size, avail := 0,
             s0 := sAt audio size r0 (A - 1), s1 := sAt audio size r0 A,
             frac := (x + ((m + 1 : Nat) : Rat) * step) - (A : Rat) },
           (List.range (m + 1)).map
               (fun (i : Nat) => lerpAt audio size r0 (x + (i : Rat) * step))
             ++ List.replicate (n - (m + 1)) 0,
           m + 1, true) := by
  intro m
  induction m with
  | zero =>
      intro n st x A hx hr hav hs0 hs1 hf hlt hbk hmn
      obtain ⟨n', rfl⟩ : ∃ n', n = n' + 1 := ⟨n - 1, by omega⟩
      have hcA : ⌊x⌋₊ < A := by
        have := hlt 0 (le_refl 0)
        simpa using this
      have hbk1 : A ≤ ⌊x + step⌋₊ := by
        have : x + ((0 + 1 : Nat) : Rat) * step = x + step := by
          push_cast
          ring
        rwa [this] at hbk
      have hcw := consumeWhile_break size audio (A - ⌊x⌋₊)
        { st with frac := st.frac + step } r0 ⌊x⌋₊
        (by exact hr)
        (by exact hs0)
        (by exact hs1)
        (by
          show (0 : Rat) ≤ st.frac + step
          have := Nat.floor_le hx
          rw [hf]
          linarith)
        (by
          show st.avail = A - ⌊x⌋₊
          exact hav)
        (by omega)
        (by
          show A - ⌊x⌋₊ ≤ ⌊st.frac + step⌋.toNat
          rw [hf, floor_shift_toNat hx hstep]
          have : ⌊x⌋₊ ≤ ⌊x + step⌋₊ := Nat.floor_mono (by linarith)
          omega)
      simp only [renderLoop]
      rw [hcw]
      have e1 : r0 + ⌊x⌋₊ + (A - ⌊x⌋₊) = r0 + A := by omega
      have e2 : ⌊x⌋₊ + (A - ⌊x⌋₊) - 1 = A - 1 := by omega
      have e3 : ⌊x⌋₊ + (A - ⌊x⌋₊) = A := by omega
      have e4 : st.frac + step - ((A - ⌊x⌋₊ : Nat) : Rat)
          = (x + ((0 + 1 : Nat) : Rat) * step) - (A : Rat) := by
        rw [hf, Nat.cast_sub (le_of_lt hcA)]
        push_cast
        ring
      rw [e1, e2, e3, e4]
      have hav0 : (0 : Nat) < 1 := by omega
      simp only [if_pos hav0]
      have hout0 : st.s0 + (st.s1 - st.s0) * st.frac = lerpAt audio size r0 x := by
        rw [hs0, hs1, hf]
        rfl
      rw [hout0]
      congr 1
      simp [List.range_succ]
  | succ m ih =>
      intro n st x A hx hr hav hs0 hs1 hf hlt hbk hmn
      obtain ⟨n', rfl⟩ : ∃ n', n = n' + 1 := ⟨n - 1, by omega⟩
      have hfloorx_le : ⌊x⌋₊ ≤ ⌊x + step⌋₊ := Nat.floor_mono (by linarith)
      have hstep1 : ⌊x + step⌋₊ < A := by
        have h1 := hlt 1 (by omega)
        have : x + ((1 : Nat) : Rat) * step = x + step := by
          push_cast
          ring
        rwa [this] at h1
      have hcw := consumeWhile_total size audio (⌊x + step⌋₊ - ⌊x⌋₊)
        { st with frac := st.frac + step } r0 ⌊x⌋₊
        (by exact hr)
        (by exact hs0)
        (by exact hs1)
        (by
          show (0 : Rat) ≤ st.frac + step
          have := Nat.floor_le hx
          rw [hf]
          linarith)
        (by
          show ⌊st.frac + step⌋.toNat = ⌊x + step⌋₊ - ⌊x⌋₊
          rw [hf]
          exact floor_shift_toNat hx hstep)
        (by
          show ⌊x + step⌋₊ - ⌊x⌋₊ < st.avail
          rw [hav]
          omega)
      simp only [renderLoop]
      rw [hcw]
      have e2 : r0 + ⌊x⌋₊ + (⌊x + step⌋₊ - ⌊x⌋₊) = r0 + ⌊x + step⌋₊ := by omega
      have e3 : st.avail - (⌊x + step⌋₊ - ⌊x⌋₊) = A - ⌊x + step⌋₊ := by
        rw [hav]
        omega
      have e4 : st.frac + step - ((⌊x + step⌋₊ - ⌊x⌋₊ : Nat) : Rat)
          = (x + step) - (⌊x + step⌋₊ : Rat) := by
        rw [hf, Nat.cast_sub hfloorx_le]
        ring
      have e1 : ⌊x⌋₊ + (⌊x + step⌋₊ - ⌊x⌋₊) = ⌊x + step⌋₊ := by omega
      rw [e2, e3, e4, e1]
      have hnb : ¬((A - ⌊x + step⌋₊ : Nat) < 1) := by omega
      simp only [if_neg hnb]
      have hxs : (0 : Rat) ≤ x + step := by linarith
      have hrec := ih n'
        { r := (r0 + ⌊x + step⌋₊) % size, avail := A - ⌊x + step⌋₊,
          s0 := sAt audio size r0 ⌊x + step⌋₊,
          s1 := sAt audio size r0 (⌊x + step⌋₊ + 1),
          frac := x + step - (⌊x + step⌋₊ : Rat) }
        (x + step) A hxs rfl rfl rfl rfl rfl
        (by
          intro i hi
          have h1 := hlt (i + 1) (by omega)
          have : x + ((i + 1 : Nat) : Rat) * step = x + step + (i : Rat) * step := by
            push_cast
            ring
          rwa [this] at h1)
        (by
          have : x + ((m + 1 + 1 : Nat) : Rat) * step
              = x + step + ((m + 1 : Nat) : Rat) * step := by
            push_cast
            ring
          rwa [this] at hbk)
        (by omega)
      rw [hrec]
      have hout0 : st.s0 + (st.s1 - st.s0) * st.frac = lerpAt audio size r0 x := by
        rw [hs0, hs1, hf]
        rfl
      rw [hout0]
      have hfr : x + step + ((m + 1 : Nat) : Rat) * step - (A : Rat)
          = x + ((m + 1 + 1 : Nat) : Rat) * step - (A : Rat) := by
        push_cast
        ring
      rw [hfr]
      have hlist : lerpAt audio size r0 x
            :: (List.range (m + 1)).map
                (fun (i : Nat) => lerpAt audio size r0 (x + step + (i : Rat) * step))
          = (List.range (m + 1 + 1)).map
              (fun (i : Nat) => lerpAt audio size r0 (x + (i : Rat) * step)) := by
        conv_rhs => rw [List.range_succ_eq_map]
        rw [List.map_cons, List.map_map]
        congr 1
        · simp
        · apply List.map_congr_left
          intro i _
          simp only [Function.comp]
          congr 1
          push_cast
          ring
      rw [← List.cons_append, hlist]
      have hcount : n' - (m + 1) = n' + 1 - (m + 1 + 1) := by omega
      rw [hcount]

lemma resamplePhaseE_no_dead (p : Proc) (frames avail0 : Nat) (hp : p.playing = true)
    (h2 : ¬(avail0 < 2)) :
    resamplePhaseE p frames avail0
      = (let res := renderLoop p.audioSamples p.audio (stepOf p)
          ⟨p.r, avail0, readInputSampleAt p.audio p.r,
            readInputSampleAt p.audio ((p.r + 1) % p.audioSamples), p.pos⟩ frames
        ({ p with
            pos := res.1.frac
            r := res.1.r
            underruns := if res.2.2.2 = true then p.underruns + 1 else p.underruns },
          res.2.1, res.2.2.1)) := by
  unfold resamplePhaseE stepOf
  have hdead : ¬(p.playing = false ∧ 0 < p.highFrames
      ∧ p.highFrames ≤ avail0 * p.outRate / p.inRate) := by
    simp [hp]
  simp only [if_neg hdead, if_neg h2]

/-- C5 part (b): a block that starts with fewer than 2 buffered samples is
entirely silence, counts one underrun, and leaves `pos` and `r` alone. -/
lemma resamplePhaseE_block_underrun (p : Proc) (frames avail0 : Nat)
    (hp : p.playing = true) (h2 : avail0 < 2) :
    resamplePhaseE p frames avail0
      = ({ p with underruns := p.underruns + 1 }, silence frames, 0) := by
  unfold resamplePhaseE
  have hdead : ¬(p.playing = false ∧ 0 < p.highFrames
      ∧ p.highFrames ≤ avail0 * p.outRate / p.inRate) := by
    simp [hp]
  simp only [if_neg hdead, if_pos h2]

/-- C5 part (a): with enough buffered input, every output frame of the block
is the linear interpolation `s0 + (s1 - s0) * frac` at the running position
`pos + i * step`, no underrun is counted, and the final fractional carry and
read cursor are exactly the position advanced by `frames * step`. -/
lemma resamplePhaseE_formula (p : Proc) (frames avail0 : Nat)
    (hp : p.playing = true) (hr : p.r < p.audioSamples)
    (hpos0 : 0 ≤ p.pos) (hpos1 : p.pos < 1) (h2 : 2 ≤ avail0)
    (hA : ⌊p.pos + (frames : Rat) * stepOf p⌋₊ + 1 ≤ avail0) :
    resamplePhaseE p frames avail0
      = ({ p with
            pos := (p.pos + (frames : Rat) * stepOf p)
              - (⌊p.pos + (frames : Rat) * stepOf p⌋₊ : Rat)
            r := (p.r + ⌊p.pos + (frames : Rat) * stepOf p⌋₊) % p.audioSamples },
          (List.range frames).map
            (fun (i : Nat) => lerpAt p.audio p.audioSamples p.r (p.pos + (i : Rat) * stepOf p)),
          frames) := by
  have hstep : (0 : Rat) ≤ stepOf p := by
    unfold stepOf
    positivity
  have h2n : ¬(avail0 < 2) := by omega
  rw [resamplePhaseE_no_dead p frames avail0 hp h2n]
  have hfl0 : ⌊p.pos⌋₊ = 0 := Nat.floor_eq_zero.mpr hpos1
  have hmod : p.r % p.audioSamples = p.r := Nat.mod_eq_of_lt hr
  have hrl := renderLoop_no_starve p.audioSamples p.audio (stepOf p) hstep p.r frames
    ⟨p.r, avail0, readInputSampleAt p.audio p.r,
      readInputSampleAt p.audio ((p.r + 1) % p.audioSamples), p.pos⟩
    p.pos avail0 hpos0
    (by
      show p.r = (p.r + ⌊p.pos⌋₊) % p.audioSamples
      rw [hfl0, Nat.add_zero, hmod])
    (by
      show avail0 = avail0 - ⌊p.pos⌋₊
      rw [hfl0]
      omega)
    (by
      show readInputSampleAt p.audio p.r = sAt p.audio p.audioSamples p.r ⌊p.pos⌋₊
      rw [hfl0]
      unfold sAt
      rw [Nat.add_zero, hmod])
    (by
      show readInputSampleAt p.audio ((p.r + 1) % p.audioSamples)
        = sAt p.audio p.audioSamples p.r (⌊p.pos⌋₊ + 1)
      rw [hfl0]
      unfold sAt
      norm_num)
    (by
      show p.pos = p.pos - (⌊p.pos⌋₊ : Rat)
      rw [hfl0]
      norm_num)
    hA
  simp only
  rw [hrl]
  simp

/-- C5 part (c): starvation mid-block at frame `m`: the remainder of the
block past frame `m` is zero-filled, the underrun counter increments once,
and the read cursor consumes all `avail0` samples. -/
lemma resamplePhaseE_starve (p : Proc) (frames avail0 m : Nat)
    (hp : p.playing = true) (hr : p.r < p.audioSamples)
    (hpos0 : 0 ≤ p.pos) (hpos1 : p.pos < 1) (h2 : 2 ≤ avail0)
    (hlt : ∀ i : Nat, i ≤ m → ⌊p.pos + (i : Rat) * stepOf p⌋₊ < avail0)
    (hbk : avail0 ≤ ⌊p.pos + ((m + 1 : Nat) : Rat) * stepOf p⌋₊)
    (hmn : m < frames) :
    resamplePhaseE p frames avail0
      = ({ p with
            pos := (p.pos + ((m + 1 : Nat) : Rat) * stepOf p) - (avail0 : Rat)
            r := (p.r + avail0) % p.audioSamples
            underruns := p.underruns + 1 },
          (List.range (m + 1)).map
              (fun (i : Nat) => lerpAt p.audio p.audioSamples p.r (p.pos + (i : Rat) * stepOf p))
            ++ List.replicate (frames - (m + 1)) 0,
          m + 1) := by
  have hstep : (0 : Rat) ≤ stepOf p := by
    unfold stepOf
    positivity
  rw [resamplePhaseE_no_dead p frames avail0 hp (by omega)]
  have hfl0 : ⌊p.pos⌋₊ = 0 := Nat.floor_eq_zero.mpr hpos1
  have hmod : p.r % p.audioSamples = p.r := Nat.mod_eq_of_lt hr
  have hrl := renderLoop_starve p.audioSamples p.audio (stepOf p) hstep p.r m frames
    ⟨p.r, avail0, readInputSampleAt p.audio p.r,
      readInputSampleAt p.audio ((p.r + 1) % p.audioSamples), p.pos⟩
    p.pos avail0 hpos0
    (by
      show p.r = (p.r + ⌊p.pos⌋₊) % p.audioSamples
      rw [hfl0, Nat.add_zero, hmod])
    (by
      show avail0 = avail0 - ⌊p.pos⌋₊
      rw [hfl0]
      omega)
    (by
      show readInputSampleAt p.audio p.r = sAt p.audio p.audioSamples p.r ⌊p.pos⌋₊
      rw [hfl0]
      unfold sAt
      rw [Nat.add_zero, hmod])
    (by
      show readInputSampleAt p.audio ((p.r + 1) % p.audioSamples)
        = sAt p.audio p.audioSamples p.r (⌊p.pos⌋₊ + 1)
      rw [hfl0]
      unfold sAt
      norm_num)
    (by
      show p.pos = p.pos - (⌊p.pos⌋₊ : Rat)
      rw [hfl0]
      norm_num)
    hlt hbk hmn
  simp only
  rw [hrl]
  simp

/-- C5 counterexample: with only 2 input samples buffered and `step = 1/2`,
output frames 2 and 3 have no pair of bracketing input samples (fewer than
2 are available once frame 1 consumed one), yet the block is
`[0, 1/4, 1/2, 1/4]`: frames 2 and 3 are *not* silence — frame 3 even
interpolates toward the never-written ring slot 2.  The claim "when fewer
than 2 input samples are available the remainder of the block is filled
with silence" is false of the code, which only stops once 0 remain. -/
theorem resampler_stale_interpolation_counterexample :
    availableInputSamples twoSampleProc.w twoSampleProc.r twoSampleProc.audioSamples = 2 ∧
      (processE twoSampleProc 4).2.1 = [0, 1/4, 1/2, 1/4] ∧
      ¬((processE twoSampleProc 4).2.1.getD 2 0 = 0
        ∧ (processE twoSampleProc 4).2.1.getD 3 0 = 0) ∧
      (processE twoSampleProc 4).1.underruns = 1 := by
  have havail : availableInputSamples twoSampleProc.w twoSampleProc.r twoSampleProc.audioSamples
      = 2 := by decide
  have h1 : processE twoSampleProc 4
      = afterGateE { twoSampleProc with outCursor := twoSampleProc.outCursor + 4 } 4
          (availableInputSamples twoSampleProc.w twoSampleProc.r twoSampleProc.audioSamples) :=
    processE_playing_branch twoSampleProc 4 (by decide) rfl (by decide) rfl
  rw [havail] at h1
  have h2 : afterGateE { twoSampleProc with outCursor := twoSampleProc.outCursor + 4 } 4 2
      = resamplePhaseE { twoSampleProc with outCursor := twoSampleProc.outCursor + 4 } 4 2 :=
    afterGateE_resample _ 4 2 (Or.inl (by decide))
  have hstepv : stepOf { twoSampleProc with outCursor := twoSampleProc.outCursor + 4 }
      = 1 / 2 := by
    norm_num [stepOf, twoSampleProc]
  have hposv : ({ twoSampleProc with outCursor := twoSampleProc.outCursor + 4 } : Proc).pos
      = 0 := rfl
  have h3 := resamplePhaseE_starve
    { twoSampleProc with outCursor := twoSampleProc.outCursor + 4 } 4 2 3
    rfl (by decide) (by norm_num [twoSampleProc]) (by norm_num [twoSampleProc]) (by norm_num)
    (by
      intro i hi
      rw [hstepv, hposv, Nat.floor_lt (by positivity)]
      interval_cases i <;> norm_num)
    (by
      rw [hstepv, hposv]
      exact Nat.le_floor (by push_cast; norm_num))
    (by norm_num)
  rw [h2, h3] at h1
  have hs0 : sAt twoSampleProc.audio 288000 0 0 = 0 := by
    unfold sAt readInputSampleAt
    norm_num [twoSampleProc]
  have hs1 : sAt twoSampleProc.audio 288000 0 1 = 1/2 := by
    unfold sAt readInputSampleAt
    norm_num [twoSampleProc]
  have hs2 : sAt twoSampleProc.audio 288000 0 2 = 0 := by
    unfold sAt readInputSampleAt
    norm_num [twoSampleProc]
  have hv0 : lerpAt twoSampleProc.audio 288000 0 (0 : Rat) = 0 := by
    unfold lerpAt
    rw [Nat.floor_zero]
    norm_num [hs0, hs1]
  have hv1 : lerpAt twoSampleProc.audio 288000 0 (1/2 : Rat) = 1/4 := by
    unfold lerpAt
    rw [show ⌊(1/2 : Rat)⌋₊ = 0 from Nat.floor_eq_zero.mpr (by norm_num)]
    norm_num [hs0, hs1]
  have hv2 : lerpAt twoSampleProc.audio 288000 0 (1 : Rat) = 1/2 := by
    unfold lerpAt
    rw [Nat.floor_one]
    norm_num [hs1, hs2]
  have hv3 : lerpAt twoSampleProc.audio 288000 0 (3/2 : Rat) = 1/4 := by
    unfold lerpAt
    rw [show ⌊(3/2 : Rat)⌋₊ = 1 from by
      rw [Nat.floor_eq_iff (by norm_num)]
      norm_num]
    norm_num [hs1, hs2]
  have hout : ((List.range (3 + 1)).map
        (fun (i : Nat) =>
          lerpAt ({ twoSampleProc with outCursor := twoSampleProc.outCursor + 4 }).audio
            ({ twoSampleProc with outCursor := twoSampleProc.outCursor + 4 }).audioSamples
            ({ twoSampleProc with outCursor := twoSampleProc.outCursor + 4 }).r
            (({ twoSampleProc with outCursor := twoSampleProc.outCursor + 4 }).pos
              + (i : Rat) * stepOf { twoSampleProc with outCursor := twoSampleProc.outCursor + 4 }))
      ++ List.replicate (4 - (3 + 1)) (0 : Rat))
      = [0, 1/4, 1/2, 1/4] := by
    have hsizev : twoSampleProc.audioSamples = 288000 := rfl
    have hrv : twoSampleProc.r = 0 := rfl
    have hpv : twoSampleProc.pos = 0 := rfl
    simp only [hstepv, hposv]
    rw [show List.range (3 + 1) = [0, 1, 2, 3] from rfl]
    simp only [List.map_cons, List.map_nil]
    norm_num [hsizev, hrv, hpv, hv0, hv1, hv2, hv3]
  rw [hout] at h1
  rw [h1]
  refine ⟨havail, rfl, by norm_num, rfl⟩

/-- C5 amended: (a) with enough buffered input every output sample of the
block equals `s0 + (s1 - s0) * frac` at the running fractional position
`pos + i * step` (`step = inRate/outRate`), the fractional carry and read
cursor advance by exactly `frames * step`, and no underrun is counted;
(b) a block starting with fewer than 2 buffered samples is entirely silence
with one underrun and no state advance; (c) when the buffer starves
mid-block — which happens only once 0 samples remain, the loop continuing
down through `avail = 1` interpolating toward the next (possibly stale)
ring slot — the remainder of the block past the starvation frame is
zero-filled and the underrun counter increments once; (d) the fractional
carry `pos` survives every control message except `reset`, which alone
clears it. -/
theorem resampler_linear_interpolation :
    (∀ (p : Proc) (frames avail0 : Nat),
      p.playing = true → p.r < p.audioSamples → 0 ≤ p.pos → p.pos < 1 → 2 ≤ avail0 →
      ⌊p.pos + (frames : Rat) * stepOf p⌋₊ + 1 ≤ avail0 →
      resamplePhaseE p frames avail0
        = ({ p with
              pos := (p.pos + (frames : Rat) * stepOf p)
                - (⌊p.pos + (frames : Rat) * stepOf p⌋₊ : Rat)
              r := (p.r + ⌊p.pos + (frames : Rat) * stepOf p⌋₊) % p.audioSamples },
            (List.range frames).map
              (fun (i : Nat) =>
                lerpAt p.audio p.audioSamples p.r (p.pos + (i : Rat) * stepOf p)),
            frames)) ∧
    (∀ (p : Proc) (frames avail0 : Nat), p.playing = true → avail0 < 2 →
      resamplePhaseE p frames avail0
        = ({ p with underruns := p.underruns + 1 }, silence frames, 0)) ∧
    (∀ (p : Proc) (frames avail0 m : Nat),
      p.playing = true → p.r < p.audioSamples → 0 ≤ p.pos → p.pos < 1 → 2 ≤ avail0 →
      (∀ i : Nat, i ≤ m → ⌊p.pos + (i : Rat) * stepOf p⌋₊ < avail0) →
      avail0 ≤ ⌊p.pos + ((m + 1 : Nat) : Rat) * stepOf p⌋₊ →
      m < frames →
      resamplePhaseE p frames avail0
        = ({ p with
              pos := (p.pos + ((m + 1 : Nat) : Rat) * stepOf p) - (avail0 : Rat)
              r := (p.r + avail0) % p.audioSamples
              underruns := p.underruns + 1 },
            (List.range (m + 1)).map
                (fun (i : Nat) =>
                  lerpAt p.audio p.audioSamples p.r (p.pos + (i : Rat) * stepOf p))
              ++ List.replicate (frames - (m + 1)) 0,
            m + 1)) ∧
    (∀ (p : Proc) (m : WorkletMsg), m ≠ WorkletMsg.reset → (onmessage p m).pos = p.pos) ∧
    (∀ (p : Proc), (onmessage p WorkletMsg.reset).pos = 0) := by
  refine ⟨resamplePhaseE_formula, resamplePhaseE_block_underrun, resamplePhaseE_starve,
    ?_, fun p => rfl⟩
  intro p m hm
  cases m with
  | config ir sf lf hf hof cf ef => rfl
  | initShared audio n => rfl
  | eos => rfl
  | stop => rfl
  | reset => exact absurd rfl hm

/-- Witness for `resampler_linear_interpolation`: part (a) at a playing
session with 2000 samples buffered and a 4-frame block, part (d) at `stop`. -/
theorem resampler_linear_interpolation_witness :
    (⌊(0 : Rat) + (4 : Rat) * stepOf { twoSampleProc with w := 2000 }⌋₊ + 1 ≤ 2000 ∧
      resamplePhaseE { twoSampleProc with w := 2000 } 4 2000
        = ({ { twoSampleProc with w := 2000 } with
              pos := (({ twoSampleProc with w := 2000 } : Proc).pos
                  + ((4 : Nat) : Rat) * stepOf { twoSampleProc with w := 2000 })
                - (⌊({ twoSampleProc with w := 2000 } : Proc).pos
                    + ((4 : Nat) : Rat) * stepOf { twoSampleProc with w := 2000 }⌋₊ : Rat)
              r := (({ twoSampleProc with w := 2000 } : Proc).r
                  + ⌊({ twoSampleProc with w := 2000 } : Proc).pos
                    + ((4 : Nat) : Rat) * stepOf { twoSampleProc with w := 2000 }⌋₊)
                % ({ twoSampleProc with w := 2000 } : Proc).audioSamples },
            (List.range 4).map
              (fun (i : Nat) =>
                lerpAt ({ twoSampleProc with w := 2000 } : Proc).audio
                  ({ twoSampleProc with w := 2000 } : Proc).audioSamples
                  ({ twoSampleProc with w := 2000 } : Proc).r
                  (({ twoSampleProc with w := 2000 } : Proc).pos
                    + (i : Rat) * stepOf { twoSampleProc with w := 2000 })),
            4)) ∧
    (onmessage twoSampleProc WorkletMsg.stop).pos = twoSampleProc.pos :=
  ⟨⟨by
      rw [show ((0 : Rat) + (4 : Rat) * stepOf { twoSampleProc with w := 2000 }) = ((2 : Nat) : Rat)
          from by norm_num [stepOf, twoSampleProc]]
      rw [Nat.floor_natCast]
      norm_num,
      resampler_linear_interpolation.1 { twoSampleProc with w := 2000 } 4 2000
        rfl (by decide) (by norm_num [twoSampleProc]) (by norm_num [twoSampleProc])
        (by norm_num)
        (by
          rw [show (({ twoSampleProc with w := 2000 } : Proc).pos
                + ((4 : Nat) : Rat) * stepOf { twoSampleProc with w := 2000 }) = ((2 : Nat) : Rat)
              from by norm_num [stepOf, twoSampleProc]]
          rw [Nat.floor_natCast]
          norm_num)⟩,
    (resampler_linear_interpolation.2.2.2.1 twoSampleProc WorkletMsg.stop (by
      intro h
      cases h))⟩

lemma afterGateE_starved (q : Proc) (frames avail0 : Nat) (hq : q.playing = true)
    (hav : avail0 < 2) :
    (afterGateE q frames avail0).2.2 = 0
      ∧ (afterGateE q frames avail0).2.1 = silence frames
      ∧ (afterGateE q frames avail0).1.w = q.w
      ∧ (afterGateE q frames avail0).1.r = q.r
      ∧ (afterGateE q frames avail0).1.audioSamples = q.audioSamples := by
  by_cases hA : 0 < q.lowFrames ∧ avail0 * q.outRate / q.inRate < q.lowFrames
  · by_cases hB : (0 < q.cooldownFrames ∧ q.outCursor < q.cooldownUntil)
        ∧ ¬(0 < q.emergencyLowFrames ∧ avail0 * q.outRate / q.inRate ≤ q.emergencyLowFrames)
    · rw [afterGateE_resample q frames avail0 (Or.inr hB),
        resamplePhaseE_block_underrun q frames avail0 hq hav]
      exact ⟨rfl, rfl, rfl, rfl, rfl⟩
    · rw [afterGateE_pause q frames avail0 hA hB]
      exact ⟨rfl, rfl, rfl, rfl, rfl⟩
  · rw [afterGateE_resample q frames avail0 (Or.inl hA),
      resamplePhaseE_block_underrun q frames avail0 hq hav]
    exact ⟨rfl, rfl, rfl, rfl, rfl⟩

/-- Once fewer than 2 input samples remain buffered, a render callback emits
no interpolated frame (pure silence) and leaves both ring cursors alone, so
no later callback can ever emit the stranded sample either. -/
lemma processE_starved_stuck (p : Proc) (frames : Nat)
    (hav : availableInputSamples p.w p.r p.audioSamples < 2) :
    (processE p frames).2.2 = 0
      ∧ (processE p frames).2.1 = silence frames
      ∧ (processE p frames).1.w = p.w
      ∧ (processE p frames).1.r = p.r
      ∧ (processE p frames).1.audioSamples = p.audioSamples := by
  by_cases h0 : p.audioSamples = 0
  · rw [processE_zero_audio p frames h0]
    exact ⟨rfl, rfl, rfl, rfl, rfl⟩
  by_cases h1 : p.enabled = true
  · by_cases h3 : p.eos = true ∧ availableInputSamples p.w p.r p.audioSamples = 0
    · rw [processE_eos_drained p frames h0 h1 h3.1 h3.2]
      exact ⟨rfl, rfl, rfl, rfl, rfl⟩
    · by_cases hp : p.playing = true
      · rw [processE_playing_branch p frames h0 h1 h3 hp]
        exact afterGateE_starved { p with outCursor := p.outCursor + frames } frames
          (availableInputSamples p.w p.r p.audioSamples) hp hav
      · have hpf : p.playing = false := by
          simp only [Bool.not_eq_true] at hp
          exact hp
        by_cases hgf : (startThresholdOf p ≤ bufferedFramesOf p
              ∨ (startThresholdOf p = 0 ∧ 0 < bufferedFramesOf p))
            ∧ ¬(p.startedOnce = true ∧ p.outCursor + frames < p.holdUntil)
        · rw [processE_gate_pass p frames h0 h1 h3 hpf hgf.1 hgf.2]
          exact afterGateE_starved _ frames
            (availableInputSamples p.w p.r p.audioSamples) rfl hav
        · rw [processE_gate_fail p frames h0 h1 h3 hpf hgf]
          exact ⟨rfl, rfl, rfl, rfl, rfl⟩
  · have h1f : p.enabled = false := by
      simp only [Bool.not_eq_true] at h1
      exact h1
    rw [processE_disabled p frames h1f]
    exact ⟨rfl, rfl, rfl, rfl, rfl⟩

/-- C6 counterexample: draining 65 buffered samples at 24000 → 48000 Hz in
128-frame render blocks emits 128 frames in the first block, then the
second block starts with only 1 available sample and emits nothing, and the
session is stuck from then on (cursors frozen): the drained total is 128,
while `round(65 * 48000 / 24000) = 130` — off by 2, not within ±1. -/
theorem resampler_drain_total_counterexample :
    round (((65 : Rat) * drainProc.outRate) / drainProc.inRate) = 130 ∧
      drainEmitted drainProc 128 2 = 128 ∧
      (processE (processE (processE drainProc 128).1 128).1 128).2.2 = 0 ∧
      (processE (processE (processE drainProc 128).1 128).1 128).1.r
        = (processE (processE drainProc 128).1 128).1.r ∧
      ¬(((drainEmitted drainProc 128 2 : Int)
          - round (((65 : Rat) * drainProc.outRate) / drainProc.inRate)).natAbs ≤ 1) := by
  have hround : round (((65 : Rat) * drainProc.outRate) / drainProc.inRate) = 130 := by
    rw [show ((65 : Rat) * drainProc.outRate) / drainProc.inRate = ((130 : Nat) : Rat)
      from by norm_num [drainProc]]
    rw [round_natCast]
    norm_num
  have havail : availableInputSamples drainProc.w drainProc.r drainProc.audioSamples
      = 65 := by decide
  have hpb := processE_playing_branch drainProc 128 (by norm_num [drainProc]) rfl
    (by decide) rfl
  rw [havail] at hpb
  have hgate : afterGateE { drainProc with outCursor := drainProc.outCursor + 128 } 128 65
      = resamplePhaseE { drainProc with outCursor := drainProc.outCursor + 128 } 128 65 :=
    afterGateE_resample _ 128 65 (Or.inl (by decide))
  have hstep1 : stepOf { drainProc with outCursor := drainProc.outCursor + 128 } = 1/2 := by
    norm_num [stepOf, drainProc]
  have hpos1 : ({ drainProc with outCursor := drainProc.outCursor + 128 } : Proc).pos
      = 0 := rfl
  have hfl : ⌊({ drainProc with outCursor := drainProc.outCursor + 128 } : Proc).pos
      + ((128 : Nat) : Rat) * stepOf { drainProc with outCursor := drainProc.outCursor + 128 }⌋₊
      = 64 := by
    rw [hpos1, hstep1]
    rw [show (0 : Rat) + ((128 : Nat) : Rat) * (1/2) = ((64 : Nat) : Rat) from by
      push_cast
      norm_num]
    exact Nat.floor_natCast 64
  have hform := resamplePhaseE_formula { drainProc with outCursor := drainProc.outCursor + 128 }
    128 65 rfl (by decide) (le_refl 0) (show (0 : Rat) < 1 by norm_num) (by norm_num)
    (by rw [hfl])
  rw [hgate, hform] at hpb
  have he1 : (processE drainProc 128).2.2 = 128 := by rw [hpb]
  have hq1w : (processE drainProc 128).1.w = 65 := by
    rw [hpb]
    rfl
  have hq1S : (processE drainProc 128).1.audioSamples = 288000 := by
    rw [hpb]
    rfl
  have hq1r : (processE drainProc 128).1.r = 64 := by
    rw [hpb]
    rw [hfl]
    decide
  have st2 := processE_starved_stuck (processE drainProc 128).1 128
    (by
      rw [hq1w, hq1r, hq1S]
      decide)
  have hq2w : (processE (processE drainProc 128).1 128).1.w = 65 := by
    rw [st2.2.2.1]
    exact hq1w
  have hq2r : (processE (processE drainProc 128).1 128).1.r = 64 := by
    rw [st2.2.2.2.1]
    exact hq1r
  have hq2S : (processE (processE drainProc 128).1 128).1.audioSamples = 288000 := by
    rw [st2.2.2.2.2]
    exact hq1S
  have st3 := processE_starved_stuck (processE (processE drainProc 128).1 128).1 128
    (by
      rw [hq2w, hq2r, hq2S]
      decide)
  have hd : drainEmitted drainProc 128 2 = 128 := by
    have hunf : drainEmitted drainProc 128 2
        = (processE drainProc 128).2.2
          + ((processE (processE drainProc 128).1 128).2.2
            + drainEmitted (processE (processE drainProc 128).1 128).1 128 0) := rfl
    rw [hunf, he1, st2.1]
    rw [show drainEmitted (processE (processE drainProc 128).1 128).1 128 0 = 0 from rfl]
  refine ⟨hround, hd, st3.1, st3.2.2.2.1, ?_⟩
  rw [hd, hround]
  decide

/-- C6 amended: (a) draining a playing session that holds `N ≥ 2` buffered
input samples (fractional carry 0) with a *single* render block of at least
`⌈N * outRate / inRate⌉` frames emits exactly `⌈N * outRate / inRate⌉`
interpolated frames — within ±1 of `round(N * outRate / inRate)` — and
consumes all `N` samples; (b) but a render block that begins with fewer
than 2 available samples emits nothing and freezes both cursors, so a
multi-block drain strands the final sample at a block boundary and its
total can fall 2 short of the rounded value (see the counterexample). -/
theorem resampler_drain_round_trip :
    (∀ (p : Proc) (N frames : Nat),
      p.playing = true → p.r < p.audioSamples → p.pos = 0 →
      0 < p.inRate → 0 < p.outRate → 2 ≤ N →
      ⌈((N : Rat) * p.outRate) / p.inRate⌉₊ ≤ frames →
      (resamplePhaseE p frames N).2.2 = ⌈((N : Rat) * p.outRate) / p.inRate⌉₊
        ∧ (resamplePhaseE p frames N).1.r = (p.r + N) % p.audioSamples
        ∧ (((resamplePhaseE p frames N).2.2 : Int)
            - round (((N : Rat) * p.outRate) / p.inRate)).natAbs ≤ 1) ∧
    (∀ (p : Proc) (frames : Nat),
      availableInputSamples p.w p.r p.audioSamples < 2 →
      (processE p frames).2.2 = 0
        ∧ (processE p frames).1.w = p.w
        ∧ (processE p frames).1.r = p.r) := by
  constructor
  · intro p N frames hp hr hpos hin hout hN hfr
    have hinQ : ((p.inRate : Rat)) ≠ 0 := Nat.cast_ne_zero.mpr (by omega)
    have houtQ : ((p.outRate : Rat)) ≠ 0 := Nat.cast_ne_zero.mpr (by omega)
    have hstep_pos : 0 < stepOf p := by
      unfold stepOf
      apply div_pos
      · exact_mod_cast hin
      · exact_mod_cast hout
    have hApos : 0 < ((N : Rat) * p.outRate) / p.inRate := by
      apply div_pos
      · apply mul_pos
        · exact_mod_cast (by omega : 0 < N)
        · exact_mod_cast hout
      · exact_mod_cast hin
    have hceil1 : 0 < ⌈((N : Rat) * p.outRate) / p.inRate⌉₊ := Nat.ceil_pos.mpr hApos
    have hAs : (((N : Rat) * p.outRate) / p.inRate) * stepOf p = (N : Rat) := by
      unfold stepOf
      field_simp
    have hm1 : ⌈((N : Rat) * p.outRate) / p.inRate⌉₊ - 1 + 1
        = ⌈((N : Rat) * p.outRate) / p.inRate⌉₊ := by omega
    have hst := resamplePhaseE_starve p frames N
      (⌈((N : Rat) * p.outRate) / p.inRate⌉₊ - 1)
      hp hr (le_of_eq hpos.symm) (by rw [hpos]; norm_num) hN
      (by
        intro i hi
        rw [hpos, zero_add, Nat.floor_lt (by positivity)]
        have hiA : (i : Rat) < ((N : Rat) * p.outRate) / p.inRate := by
          apply Nat.lt_ceil.mp
          omega
        calc (i : Rat) * stepOf p
            < (((N : Rat) * p.outRate) / p.inRate) * stepOf p :=
              mul_lt_mul_of_pos_right hiA hstep_pos
          _ = (N : Rat) := hAs)
      (by
        rw [hpos, zero_add]
        apply Nat.le_floor
        rw [show ((⌈((N : Rat) * p.outRate) / p.inRate⌉₊ - 1 + 1 : Nat) : Rat)
            = (⌈((N : Rat) * p.outRate) / p.inRate⌉₊ : Rat) from by
          exact_mod_cast congrArg (fun k : Nat => (k : Rat)) hm1]
        calc (N : Rat) = (((N : Rat) * p.outRate) / p.inRate) * stepOf p := hAs.symm
          _ ≤ (⌈((N : Rat) * p.outRate) / p.inRate⌉₊ : Rat) * stepOf p :=
            mul_le_mul_of_nonneg_right (Nat.le_ceil _) (le_of_lt hstep_pos))
      (by omega)
    refine ⟨?_, ?_, ?_⟩
    · rw [hst]
      exact hm1
    · rw [hst]
    · rw [hst]
      show (((⌈((N : Rat) * p.outRate) / p.inRate⌉₊ - 1 + 1 : Nat) : Int)
          - round (((N : Rat) * p.outRate) / p.inRate)).natAbs ≤ 1
      rw [show ((⌈((N : Rat) * p.outRate) / p.inRate⌉₊ - 1 + 1 : Nat) : Int)
          = ((⌈((N : Rat) * p.outRate) / p.inRate⌉₊ : Nat) : Int) from by
        exact_mod_cast congrArg (fun k : Nat => (k : Int)) hm1]
      rw [Int.natCast_ceil_eq_ceil hApos.le, round_eq]
      have hf1 : ⌊((N : Rat) * p.outRate) / p.inRate⌋
          ≤ ⌊((N : Rat) * p.outRate) / p.inRate + 1/2⌋ := Int.floor_mono (by linarith)
      have hf2 : ⌊((N : Rat) * p.outRate) / p.inRate + 1/2⌋
          ≤ ⌊((N : Rat) * p.outRate) / p.inRate⌋ + 1 := by
        have h := Int.floor_mono
          (show ((N : Rat) * p.outRate) / p.inRate + 1/2
            ≤ ((N : Rat) * p.outRate) / p.inRate + 1 from by linarith)
        rwa [Int.floor_add_one] at h
      have hf3 : ⌈((N : Rat) * p.outRate) / p.inRate⌉
          ≤ ⌊((N : Rat) * p.outRate) / p.inRate⌋ + 1 := Int.ceil_le_floor_add_one _
      have hf4 : ⌊((N : Rat) * p.outRate) / p.inRate⌋
          ≤ ⌈((N : Rat) * p.outRate) / p.inRate⌉ := Int.floor_le_ceil _
      omega
  · intro p frames hav
    exact ⟨(processE_starved_stuck p frames hav).1,
      (processE_starved_stuck p frames hav).2.2.1,
      (processE_starved_stuck p frames hav).2.2.2.1⟩

/-- Witness for `resampler_drain_round_trip`: part (a) draining the 65
buffered samples of `drainProc` in one 256-frame block emits exactly
`⌈65 * 48000 / 24000⌉ = 130` frames; part (b) at the same session with its
read cursor advanced to 64, where only one sample remains. -/
theorem resampler_drain_round_trip_witness :
    (2 ≤ 65 ∧ ⌈(((65 : Nat) : Rat) * drainProc.outRate) / drainProc.inRate⌉₊ ≤ 256
      ∧ availableInputSamples drainProc.w 64 drainProc.audioSamples < 2) ∧
    (resamplePhaseE drainProc 256 65).2.2
        = ⌈(((65 : Nat) : Rat) * drainProc.outRate) / drainProc.inRate⌉₊ ∧
    (processE { drainProc with r := 64 } 128).2.2 = 0 := by
  have hceil : ⌈(((65 : Nat) : Rat) * drainProc.outRate) / drainProc.inRate⌉₊ = 130 := by
    rw [show (((65 : Nat) : Rat) * drainProc.outRate) / drainProc.inRate = ((130 : Nat) : Rat)
      from by
        push_cast
        norm_num [drainProc]]
    exact Nat.ceil_natCast 130
  refine ⟨⟨by norm_num, by rw [hceil]; norm_num, by decide⟩, ?_, ?_⟩
  · exact (resampler_drain_round_trip.1 drainProc 65 256 rfl (by decide) rfl
      (by decide) (by decide) (by norm_num) (by rw [hceil]; norm_num)).1
  · exact (resampler_drain_round_trip.2 { drainProc with r := 64 } 128 (by decide)).1

lemma evenLenOf_le (L : List Nat) : evenLenOf L ≤ L.length := by
  unfold evenLenOf
  omega

lemma length_take_evenLen (L : List Nat) : (L.take (evenLenOf L)).length % 2 = 0 := by
  rw [List.length_take, Nat.min_eq_left (evenLenOf_le L)]
  unfold evenLenOf
  omega

lemma evenLenOf_append_even (E L : List Nat) (hE : E.length % 2 = 0) :
    evenLenOf (E ++ L) = E.length + evenLenOf L := by
  unfold evenLenOf
  rw [List.length_append]
  omega

lemma take_evenLenOf_append (E L : List Nat) (hE : E.length % 2 = 0) :
    (E ++ L).take (evenLenOf (E ++ L)) = E ++ L.take (evenLenOf L) := by
  rw [evenLenOf_append_even E L hE, List.take_append_eq_append_take,
    List.take_of_length_le (by omega)]
  have h : E.length + evenLenOf L - E.length = evenLenOf L := by omega
  rw [h]

lemma drop_evenLenOf_append (E L : List Nat) (hE : E.length % 2 = 0) :
    (E ++ L).drop (evenLenOf (E ++ L)) = L.drop (evenLenOf L) := by
  rw [evenLenOf_append_even E L hE, List.drop_append_eq_append_drop,
    List.drop_eq_nil_of_le (by omega), List.nil_append]
  have h : E.length + evenLenOf L - E.length = evenLenOf L := by omega
  rw [h]

lemma bytesToInt16_append : ∀ (E : List Nat), E.length % 2 = 0 → ∀ F : List Nat,
    bytesToInt16 (E ++ F) = bytesToInt16 E ++ bytesToInt16 F
  | [], _, F => rfl
  | [a], h, F => by simp at h
  | a :: b :: E', h, F => by
      simp only [List.cons_append, bytesToInt16]
      rw [show E'.append F = E' ++ F from rfl,
        bytesToInt16_append E' (by simp at h; omega) F]

lemma ttsChunkStep_foldl : ∀ (chunks : List (List Nat)) (B : List Nat),
    chunks.foldl ttsChunkStep
        ⟨B.drop (evenLenOf B), bytesToInt16 (B.take (evenLenOf B))⟩
      = ⟨(B ++ chunks.flatten).drop (evenLenOf (B ++ chunks.flatten)),
          bytesToInt16 ((B ++ chunks.flatten).take (evenLenOf (B ++ chunks.flatten)))⟩
  | [], B => by simp
  | c :: cs, B => by
      rw [List.foldl_cons]
      have hBc : B ++ c = B.take (evenLenOf B) ++ (B.drop (evenLenOf B) ++ c) := by
        rw [← List.append_assoc, List.take_append_drop]
      have h1 : (B.drop (evenLenOf B) ++ c).drop (evenLenOf (B.drop (evenLenOf B) ++ c))
          = (B ++ c).drop (evenLenOf (B ++ c)) := by
        conv_rhs => rw [hBc]
        rw [drop_evenLenOf_append _ _ (length_take_evenLen B)]
      have h2 : bytesToInt16 (B.take (evenLenOf B))
            ++ bytesToInt16
              ((B.drop (evenLenOf B) ++ c).take (evenLenOf (B.drop (evenLenOf B) ++ c)))
          = bytesToInt16 ((B ++ c).take (evenLenOf (B ++ c))) := by
        conv_rhs => rw [hBc]
        rw [take_evenLenOf_append _ _ (length_take_evenLen B),
          bytesToInt16_append _ (length_take_evenLen B)]
      have hstep : ttsChunkStep ⟨B.drop (evenLenOf B), bytesToInt16 (B.take (evenLenOf B))⟩ c
          = ⟨(B ++ c).drop (evenLenOf (B ++ c)),
              bytesToInt16 ((B ++ c).take (evenLenOf (B ++ c)))⟩ := by
        simp only [ttsChunkStep]
        rw [h1, h2]
      rw [hstep, ttsChunkStep_foldl cs (B ++ c)]
      simp [List.append_assoc]

/-- C2 counterexample: in the current binary WebSocket path an odd chunk
`[1, 2, 3]` makes `new Int16Array(buf)` throw (`none`), the handler's
`try/catch` swallows it, and the whole chunk is dropped with nothing
carried: the follow-up byte `[4]` is likewise dropped, so the ring never
receives a sample.  The earlier base64 path stitches the same two chunks
into the two samples `[513, 1027]` with an empty remainder — the behaviour
the spec describes, absent from the current code. -/
theorem binary_odd_chunk_drop_counterexample :
    int16ArrayOfBuffer [1, 2, 3] = none ∧
      handleBufferE emptyRing [1, 2, 3] = emptyRing ∧
      handleBufferE (handleBufferE emptyRing [1, 2, 3]) [4] = emptyRing ∧
      (ttsChunkRun [[1, 2, 3], [4]]).samples = [513, 1027] ∧
      (ttsChunkRun [[1, 2, 3], [4]]).rem = [] := by
  refine ⟨rfl, rfl, rfl, ?_, rfl⟩
  decide

/-- C2 amended: the odd-byte carry the spec describes is the base64
`tts_chunk` path of the earlier revision: over any chunk sequence it
delivers exactly the whole little-endian byte pairs of the concatenated
stream, in order, carrying the odd tail as the remainder (no byte dropped
or corrupted).  The current binary path instead drops an odd-length chunk
wholesale — the `Int16Array` construction throws and the handler's catch
leaves the ring untouched with no carry — and writes whole samples only
for even-length chunks. -/
theorem ingest_odd_byte_carry :
    (∀ chunks : List (List Nat),
      (ttsChunkRun chunks).samples
          = bytesToInt16 (chunks.flatten.take (evenLenOf chunks.flatten))
        ∧ (ttsChunkRun chunks).rem
          = chunks.flatten.drop (evenLenOf chunks.flatten)) ∧
    (∀ (rb : Ring) (bytes : List Nat), bytes.length % 2 ≠ 0 →
      handleBufferE rb bytes = rb) ∧
    (∀ (rb : Ring) (bytes : List Nat), bytes.length % 2 = 0 → bytes ≠ [] →
      handleBufferE rb bytes
        = writeToSharedRing rb (fun i => (bytesToInt16 bytes).getD i 0)
            (bytesToInt16 bytes).length) := by
  refine ⟨?_, ?_, ?_⟩
  · intro chunks
    have h := ttsChunkStep_foldl chunks []
    rw [List.nil_append] at h
    have h2 : ttsChunkRun chunks
        = ⟨chunks.flatten.drop (evenLenOf chunks.flatten),
            bytesToInt16 (chunks.flatten.take (evenLenOf chunks.flatten))⟩ := h
    rw [h2]
    exact ⟨rfl, rfl⟩
  · intro rb bytes hodd
    unfold handleBufferE
    by_cases hz : bytes.length = 0
    · rw [if_pos hz]
    · rw [if_neg hz]
      unfold int16ArrayOfBuffer
      rw [if_neg hodd]
  · intro rb bytes heven hne
    unfold handleBufferE
    rw [if_neg (by simpa using hne)]
    unfold int16ArrayOfBuffer
    rw [if_pos heven]

/-- Witness for `ingest_odd_byte_carry`: the stitching invariant at the
chunk split `[[1, 2, 3], [4]]`, the odd-chunk drop at `[1, 2, 3]`, and the
even-chunk write at `[1, 2, 3, 4]`. -/
theorem ingest_odd_byte_carry_witness :
    ((ttsChunkRun [[1, 2, 3], [4]]).samples
        = bytesToInt16 (([[1, 2, 3], [4]] : List (List Nat)).flatten.take
            (evenLenOf ([[1, 2, 3], [4]] : List (List Nat)).flatten))) ∧
    (([1, 2, 3] : List Nat).length % 2 ≠ 0
      ∧ handleBufferE emptyRing [1, 2, 3] = emptyRing) ∧
    (([1, 2, 3, 4] : List Nat).length % 2 = 0
      ∧ handleBufferE emptyRing [1, 2, 3, 4]
          = writeToSharedRing emptyRing
              (fun i => (bytesToInt16 [1, 2, 3, 4]).getD i 0)
              (bytesToInt16 [1, 2, 3, 4]).length) :=
  ⟨(ingest_odd_byte_carry.1 [[1, 2, 3], [4]]).1,
    ⟨by decide, ingest_odd_byte_carry.2.1 emptyRing [1, 2, 3] (by decide)⟩,
    ⟨by decide, ingest_odd_byte_carry.2.2 emptyRing [1, 2, 3, 4] (by decide) (by decide)⟩⟩

/-- C10: for an even recorded byte total `N` (fitting a 32-bit riff size)
and nonzero sample rate, the WAV export is exactly 44 header bytes — RIFF
and WAVE magics, riff size `36 + N`, PCM format tag 1, 1 channel, the
sample rate, byte rate `sr * 2`, block align 2, 16 bits per sample, data
size `N`, each field little-endian at its canonical offset — followed by
the received payload byte-exact. -/
theorem wav_export_format (chunks : List (List Nat)) (sr : Nat)
    (hsr : 0 < sr) (hne : chunks ≠ []) (hlen : 0 < chunks.flatten.length)
    (heven : chunks.flatten.length % 2 = 0)
    (hN32 : 36 + chunks.flatten.length < 4294967296)
    (hsr32 : sr * 2 < 4294967296) :
    finalizeTtsRecording chunks sr
        = some (wavHeader chunks.flatten.length sr ++ chunks.flatten)
      ∧ (wavHeader chunks.flatten.length sr ++ chunks.flatten).length
          = 44 + chunks.flatten.length
      ∧ (wavHeader chunks.flatten.length sr ++ chunks.flatten).drop 44 = chunks.flatten
      ∧ (wavHeader chunks.flatten.length sr ++ chunks.flatten).take 4 = [82, 73, 70, 70]
      ∧ ((wavHeader chunks.flatten.length sr ++ chunks.flatten).drop 8).take 4
          = [87, 65, 86, 69]
      ∧ leVal (((wavHeader chunks.flatten.length sr ++ chunks.flatten).drop 4).take 4)
          = 36 + chunks.flatten.length
      ∧ leVal (((wavHeader chunks.flatten.length sr ++ chunks.flatten).drop 20).take 2) = 1
      ∧ leVal (((wavHeader chunks.flatten.length sr ++ chunks.flatten).drop 22).take 2) = 1
      ∧ leVal (((wavHeader chunks.flatten.length sr ++ chunks.flatten).drop 24).take 4) = sr
      ∧ leVal (((wavHeader chunks.flatten.length sr ++ chunks.flatten).drop 28).take 4)
          = sr * 2
      ∧ leVal (((wavHeader chunks.flatten.length sr ++ chunks.flatten).drop 32).take 2) = 2
      ∧ leVal (((wavHeader chunks.flatten.length sr ++ chunks.flatten).drop 34).take 2) = 16
      ∧ leVal (((wavHeader chunks.flatten.length sr ++ chunks.flatten).drop 40).take 4)
          = chunks.flatten.length := by
  have hfin : finalizeTtsRecording chunks sr
      = some (wavHeader chunks.flatten.length sr ++ chunks.flatten) := by
    unfold finalizeTtsRecording
    rw [if_neg (by
      push_neg
      exact ⟨by omega, hne, by omega⟩)]
    unfold pcmToWavBlob
    have he : chunks.flatten.length - chunks.flatten.length % 2
        = chunks.flatten.length := by omega
    rw [he, if_neg (by omega)]
    simp
  refine ⟨hfin, ?_, ?_, ?_, ?_, ?_, ?_, ?_, ?_, ?_, ?_, ?_, ?_⟩
  · simp [wavHeader, u32le, u16le]
    omega
  · simp [wavHeader, u32le, u16le]
  · simp [wavHeader, u32le, u16le]
  · simp [wavHeader, u32le, u16le]
  · simp [wavHeader, u32le, u16le, leVal, -List.length_flatten]
    omega
  · simp [wavHeader, u32le, u16le, leVal]
  · simp [wavHeader, u32le, u16le, leVal]
  · simp [wavHeader, u32le, u16le, leVal]
    omega
  · simp [wavHeader, u32le, u16le, leVal]
    omega
  · simp [wavHeader, u32le, u16le, leVal]
  · simp [wavHeader, u32le, u16le, leVal]
  · simp [wavHeader, u32le, u16le, leVal, -List.length_flatten]
    omega

set_option maxRecDepth 4000 in
/-- Witness for `wav_export_format`: Scenario D — chunks of 100, 101 and
99 bytes at 16000 Hz give a 344-byte file whose data-size field decodes to
300. -/
theorem wav_export_format_witness :
    (0 < 16000 ∧ wavChunksD ≠ [] ∧ 0 < wavChunksD.flatten.length
      ∧ wavChunksD.flatten.length % 2 = 0
      ∧ 36 + wavChunksD.flatten.length < 4294967296
      ∧ 16000 * 2 < 4294967296) ∧
    finalizeTtsRecording wavChunksD 16000
        = some (wavHeader wavChunksD.flatten.length 16000 ++ wavChunksD.flatten) ∧
    (wavHeader wavChunksD.flatten.length 16000 ++ wavChunksD.flatten).length
        = 44 + wavChunksD.flatten.length ∧
    leVal (((wavHeader wavChunksD.flatten.length 16000
        ++ wavChunksD.flatten).drop 40).take 4) = wavChunksD.flatten.length ∧
    wavChunksD.flatten.length = 300 := by
  have h := wav_export_format wavChunksD 16000 (by norm_num) (by simp [wavChunksD])
    (by simp [wavChunksD]) (by simp [wavChunksD]) (by simp [wavChunksD]) (by norm_num)
  exact ⟨⟨by norm_num, by simp [wavChunksD], by simp [wavChunksD], by simp [wavChunksD],
      by simp [wavChunksD], by norm_num⟩,
    h.1, h.2.1, h.2.2.2.2.2.2.2.2.2.2.2.2, by simp [wavChunksD]⟩

end VoiceAgents
